import Mathlib

/-!
Verification development for the Boomer Radar repository
(`ch_retirement_finder.py` and `app.py`).

The Python source is shallowly embedded: pure fragments become Lean
functions, machine floats become `ℚ` (an idealisation noted where it
matters), network I/O becomes explicit input data (every fetched payload is
a parameter of the embedded function), and Python `try/except` fallbacks
become `Option`.  String manipulation is modelled over `List Char` with
structural recursion so that every definition evaluates inside the kernel.
-/

namespace BoomerRadar

/-! ### Small Python-semantics helpers -/

/-- Truthiness-respecting `a or b` on optional strings: Python's `or`
falls through on `None` and on the empty string. -/
def pyOrStr (a b : Option String) : Option String :=
  match a with
  | some s => if s = "" then b else some s
  | none => b

/-- ASCII whitespace recognised by `str.strip()` (the common cases). -/
def isSpaceChar (c : Char) : Bool :=
  c == ' ' || c == '\t' || c == '\n' || c == '\r' || c == '\x0b' || c == '\x0c'

/-- `str.strip()` over a character list. -/
def pyStrip (l : List Char) : List Char :=
  ((l.dropWhile isSpaceChar).reverse.dropWhile isSpaceChar).reverse

/-- `str.split(sep)` for a single-character separator, Python semantics
(`"".split(".") = [""]`, separators at the ends give empty fields). -/
def splitOnChar (sep : Char) (l : List Char) : List (List Char) :=
  l.foldr
    (fun c acc =>
      match acc with
      | cur :: rest => if c == sep then [] :: (cur :: rest) else (c :: cur) :: rest
      | [] => [[c]])
    [[]]

def charIsDigit (c : Char) : Bool := decide (48 ≤ c.toNat ∧ c.toNat ≤ 57)

/-- Accumulator pass of decimal-digit evaluation. -/
def digitsValAux : ℕ → List Char → ℕ
  | acc, [] => acc
  | acc, c :: cs => digitsValAux (acc * 10 + (c.toNat - 48)) cs

/-- A non-empty all-digit run, else `none`. -/
def parseNatDigits (l : List Char) : Option ℕ :=
  if l = [] then none
  else if l.all charIsDigit then some (digitsValAux 0 l) else none

/-- A digit run as accepted by Python `int()`: decimal digits with single
underscores strictly between digits (`int("1_0") = 10`; `_1`, `1_` and
`1__0` raise).  Returns the digits with the underscores stripped. -/
def digitRun : List Char → Option (List Char)
  | [] => none
  | [c] => if charIsDigit c then some [c] else none
  | c :: c2 :: rest2 =>
    if charIsDigit c then
      if c2 = '_' then (digitRun rest2).map (fun ds => c :: ds)
      else (digitRun (c2 :: rest2)).map (fun ds => c :: ds)
    else none

/-- Python `int(str)`: surrounding whitespace stripped, optional sign,
decimal digits with underscore grouping; anything else raises
(here: `none`). -/
def parseIntChars (l : List Char) : Option ℤ :=
  match pyStrip l with
  | '-' :: r => (digitRun r).map (fun ds => -(digitsValAux 0 ds : ℤ))
  | '+' :: r => (digitRun r).map (fun ds => (digitsValAux 0 ds : ℤ))
  | rest => (digitRun rest).map (fun ds => (digitsValAux 0 ds : ℤ))

def parseIntPy (s : String) : Option ℤ := parseIntChars s.data

/-- `_num` (ch_retirement_finder.py lines 192-198): strip thousands
separators and whitespace, then parse as a float.  We model the plain
decimal-literal fragment of Python `float()` (sign, digits, optional
fractional part); exponent, infinity and underscore-grouped forms are
rejected. -/
def pyNumBody (body : List Char) : Option ℚ :=
  match splitOnChar '.' body with
  | [ip] => (parseNatDigits ip).map (fun n => (n : ℚ))
  | [ip, fp] =>
    if (ip.all charIsDigit) ∧ (fp.all charIsDigit) ∧ ¬(ip = [] ∧ fp = []) then
      some ((digitsValAux 0 ip : ℚ) + (digitsValAux 0 fp : ℚ) / 10 ^ fp.length)
    else none
  | _ => none

def pyNum (s : String) : Option ℚ :=
  match pyStrip ((s.data).filter (fun c => !(c == ','))) with
  | '-' :: r => (pyNumBody r).map (fun q => -q)
  | '+' :: r => pyNumBody r
  | rest => pyNumBody rest

/-- Python `round(x, 1)` idealised over `ℚ`: round `10*x` to the nearest
integer, ties to even (banker's rounding), divide by 10. -/
def roundHalfEvenQ (q : ℚ) : ℤ :=
  let f := ⌊q⌋
  let r := q - f
  if r < 1/2 then f
  else if 1/2 < r then f + 1
  else if f % 2 = 0 then f else f + 1

def round1 (q : ℚ) : ℚ := (roundHalfEvenQ (10 * q) : ℚ) / 10

/-! ### Throttle (`_throttle`, lines 48-60)

`_REQ_TIMES` is the queue of recorded request timestamps.  Real time is
idealised as `ℚ`: `time.time()` at the start of a call is `max clock d`
(a call cannot start before the previous call's recorded append time
`clock`; `d` is when the caller would like to call), and `time.sleep` is
exact.  One call of `_throttle` maps a queue and the current time to the
new queue and the recorded (issue) timestamp. -/

def _WINDOW : ℚ := 300
def _LIMIT : ℕ := 580

def throttleStep (q : List ℚ) (now : ℚ) : List ℚ × ℚ :=
  let q1 := q.dropWhile (fun t => decide (_WINDOW < now - t))
  if _LIMIT ≤ q1.length then
    let issue := now + max 1 (_WINDOW - (now - q1.headD 0) + 1)
    (q1 ++ [issue], issue)
  else
    (q1 ++ [now], now)

/-- Sequential execution of throttled calls: `ds` are the desired call
times; each call starts at `max clock d` where `clock` is the previous
recorded timestamp.  Returns the recorded request timestamps in order. -/
def throttleRun (q : List ℚ) (clock : ℚ) : List ℚ → List ℚ
  | [] => []
  | d :: ds =>
    let s := throttleStep q (max clock d)
    s.2 :: throttleRun s.1 s.2 ds

/-! ### Retry wrapper (`_request`, lines 68-79) -/

structure Resp where
  status : ℕ
  retryAfter : Option String
deriving DecidableEq

inductive ReqOutcome where
  | ok (r : Resp)
  | httpError (r : Resp)
  | valueError
deriving DecidableEq

/-- `requests`' `raise_for_status`: raises on any status `≥ 400`. -/
def raiseForStatus (r : Resp) : ReqOutcome :=
  if 400 ≤ r.status then .httpError r else .ok r

def RETRY_STATUSES : List ℕ := [429, 500, 502, 503, 504]

/-- `_request`, given the first response and (if a retry happens) the
second response.  Returns the list of back-off sleeps performed by the
wrapper itself (the throttle's own sleeps are separate) and the outcome.
`int(resp.headers.get("Retry-After", "5"))` raises `ValueError` on a
malformed header, and `time.sleep` raises `ValueError` on a negative
duration — both before any retry happens. -/
def _request (r1 r2 : Resp) : List ℤ × ReqOutcome :=
  if r1.status ∈ RETRY_STATUSES then
    match parseIntPy (r1.retryAfter.getD "5") with
    | none => ([], .valueError)
    | some n => if n < 0 then ([], .valueError) else ([n], raiseForStatus r2)
  else ([], raiseForStatus r1)

/-! ### Financial extraction (`extract_financials`, lines 221-256) -/

def TURNOVER_TAGS : List String :=
  ["Turnover", "TurnoverRevenue", "Revenue", "Sales",
   "RevenueFromContractWithCustomerExcludingAssessedTax",
   "RevenueFromContractWithCustomerIncludingAssessedTax"]

def PROFIT_TAGS : List String :=
  ["ProfitLoss", "ProfitLossForPeriod",
   "ProfitLossOnOrdinaryActivitiesBeforeTax",
   "ProfitLossOnOrdinaryActivitiesAfterTax"]

def EMPLOYEE_TAGS : List String :=
  ["AverageNumberEmployeesDuringPeriod",
   "AverageNumberOfEmployeesDuringThePeriod",
   "AverageNumberOfEmployees"]

/-- One element of the parsed document, in document order; `tag` is the
namespace-local name (the xpath matches on `local-name()`), `text` the
node text (`None` possible). -/
structure Elem where
  tag : String
  text : Option String
deriving DecidableEq

/-- `pick(tags)`: first element in document order whose local name is one
of `tags` and whose text parses numerically. -/
def pick (root : List Elem) (tags : List String) : Option ℚ :=
  if tags = [] then none
  else root.findSome? fun n =>
    if n.tag ∈ tags then pyNum (String.mk (pyStrip (n.text.getD "").data)) else none

structure FinOut where
  turnover : Option ℚ
  profit : Option ℚ
  employees : Option ℚ
deriving DecidableEq

def extractFromDoc (root : List Elem) : FinOut :=
  { turnover := pick root TURNOVER_TAGS
    profit := pick root PROFIT_TAGS
    employees := pick root EMPLOYEE_TAGS }

/-- `"/document/" in meta_url` over characters. -/
def containsSublist (sep : List Char) : List Char → Bool
  | [] => sep.isPrefixOf []
  | c :: rest => sep.isPrefixOf (c :: rest) || containsSublist sep rest

/-- Remainder after the rightmost occurrence of `sep`
(`u.rsplit(sep, 1)[-1]` when `sep` occurs). -/
def lastMatchRemainder (sep : List Char) : List Char → Option (List Char)
  | [] => none
  | c :: rest =>
    match lastMatchRemainder sep rest with
    | some r => some r
    | none => if sep.isPrefixOf (c :: rest) then some ((c :: rest).drop sep.length) else none

/-- Scan of filing-history items (their `document_metadata` links) for the
first usable document id (lines 224-229). -/
def filingDocId (metaUrls : List (Option String)) : Option String :=
  metaUrls.findSome? fun m =>
    match m with
    | some u =>
      if u ≠ "" ∧ containsSublist "/document/".data u.data then
        some (String.mk (((lastMatchRemainder "/document/".data u.data).getD u.data)))
      else none
    | none => none

/-- `extract_financials` downstream of the filing-history scan: `docId` is
the extracted document id (`none`/empty means no usable filing), `fetched`
is what `_doc_fetch_content_cached` returned — `none` for no content, else
the mime type together with the parse result (`none` when both the HTML
and the XML parser fail). -/
def extractFinancials (docId : Option String)
    (fetched : Option (String × Option (List Elem))) : FinOut :=
  match docId with
  | none => ⟨none, none, none⟩
  | some d =>
    if d = "" then ⟨none, none, none⟩
    else
      match fetched with
      | none => ⟨none, none, none⟩
      | some (mime, parsed) =>
        if mime = "application/pdf" then ⟨none, none, none⟩
        else
          match parsed with
          | none => ⟨none, none, none⟩
          | some root => extractFromDoc root

/-! ### Geo / radius (`filter_by_radius`, lines 310-337) -/

/-- One result row, as far as the radius filter reads or writes it.
The remaining record fields are untouched payload and are represented by
`company_number`. -/
structure Row where
  company_number : String
  postcode : Option String
  distance_km : Option ℚ := none
  lat : Option ℚ := none
  lon : Option ℚ := none
deriving DecidableEq

/-- `(r.get("postcode") or "").strip().upper()`. -/
def normPC (o : Option String) : String :=
  String.mk ((pyStrip (o.getD "").data).map Char.toUpper)

/-- Sort key `x.get("distance_km", 1e9)`. -/
def sortKey (r : Row) : ℚ := r.distance_km.getD 1000000000

/-- The comparison `out.sort(key=...)` sorts by (line 336). -/
def rowLe (a b : Row) : Bool := decide (sortKey a ≤ sortKey b)

/-- The per-row body of the radius loop (lines 324-335): unresolved
postcodes are dropped, in-radius rows get `distance_km` (rounded to one
decimal) and coordinates attached. -/
def radiusStep (hav : ℚ → ℚ → ℚ → ℚ → ℚ) (lat0 lon0 : ℚ)
    (geo : String → Option ℚ × Option ℚ) (radius_km : ℚ) (r : Row) : Option Row :=
  match geo (normPC r.postcode) with
  | (some lat, some lon) =>
    let dist := hav lat0 lon0 lat lon
    if dist ≤ radius_km then
      some { r with distance_km := some (round1 dist), lat := some lat, lon := some lon }
    else none
  | _ => none

/-- `filter_by_radius`.  Network results are inputs: `centreRes` is the
(latitude, longitude) pair the single-postcode lookup produced for the
centre (each component optional, `(none, _)`/`(_, none)` covering failures
and missing fields), `geo` is the bulk postcode lookup, and `hav`
abstracts the floating-point haversine `_hav lat1 lon1 lat2 lon2`
(transcendental, hence a parameter of the embedding). -/
def filter_by_radius (hav : ℚ → ℚ → ℚ → ℚ → ℚ)
    (centreRes : Option ℚ × Option ℚ) (geo : String → Option ℚ × Option ℚ)
    (rows : List Row) (centre_postcode : String) (radius_km : ℚ) : List Row :=
  if rows = [] ∨ centre_postcode = "" ∨ radius_km ≤ 0 then rows
  else
    match centreRes with
    | (some lat0, some lon0) =>
      (rows.filterMap (radiusStep hav lat0 lon0 geo radius_km)).mergeSort rowLe
    | _ => []

/-! ### Dates and ages (lines 157-168) -/

structure Date where
  y : ℤ
  m : ℤ
  d : ℤ
deriving DecidableEq

/-- `approx_age`: needs a birth year; month defaults to 6. -/
def approx_age (today : Date) (dob : Option (ℤ × Option ℤ)) : Option ℤ :=
  match dob with
  | none => none
  | some (yy, mo) =>
    let m := mo.getD 6
    some (today.y - yy - (if today.m < m then 1 else 0))

def dateLtB (a b : Date) : Bool :=
  decide (a.y < b.y ∨ (a.y = b.y ∧ (a.m < b.m ∨ (a.m = b.m ∧ a.d < b.d))))

/-- `months_between` (order-insensitive). -/
def months_between (d1 d2 : Date) : ℤ :=
  let p := if dateLtB d2 d1 then (d2, d1) else (d1, d2)
  (p.2.y - p.1.y) * 12 + (p.2.m - p.1.m) - (if p.2.d < p.1.d then 1 else 0)

/-- `map(int, s.split("-"))` into a `(y, m, d)` triple; any other shape
raises (here `none`). -/
def parseDateTriple (s : String) : Option (ℤ × ℤ × ℤ) :=
  match splitOnChar '-' s.data with
  | [a, b, c] =>
    match parseIntChars a, parseIntChars b, parseIntChars c with
    | some ya, some mb, some dc => some (ya, mb, dc)
    | _, _, _ => none
  | _ => none

def isLeap (y : ℤ) : Bool := decide ((y % 4 = 0 ∧ y % 100 ≠ 0) ∨ y % 400 = 0)

def daysInMonth (y m : ℤ) : ℤ :=
  if m = 2 then (if isLeap y then 29 else 28)
  else if m = 4 ∨ m = 6 ∨ m = 9 ∨ m = 11 then 30
  else 31

/-- `dt.date(y, m, d)` construction; invalid dates raise (here `none`). -/
def mkValidDate (t : ℤ × ℤ × ℤ) : Option Date :=
  if 1 ≤ t.1 ∧ t.1 ≤ 9999 ∧ 1 ≤ t.2.1 ∧ t.2.1 ≤ 12 ∧ 1 ≤ t.2.2 ∧ t.2.2 ≤ daysInMonth t.1 t.2.1 then
    some ⟨t.1, t.2.1, t.2.2⟩
  else none

def parsePyDate (s : String) : Option Date := (parseDateTriple s).bind mkValidDate

/-! ### Main search (`find_targets`, lines 343-564)

The per-candidate API calls are embedded as input data: a `Candidate`
carries everything the pipeline would fetch for that company
(`get_directors`, `get_company_profile`, `extract_financials`, `get_psc`,
`get_outstanding_charges_count`), and the paged `advanced_search_by_sic`
results are the list of pages.  The outreach `google` link (pure URL
formatting via `quote_plus`, read by no claim) is omitted from the
emitted record. -/

structure Officer where
  name : Option String
  dob : Option (ℤ × Option ℤ)
deriving DecidableEq

structure Psc where
  name : Option String
  dob : Option (ℤ × Option ℤ)
deriving DecidableEq

/-- Profile `accounts` sub-record fields read by the pipeline. -/
structure AccountsInfo where
  last_made_up_to : Option String
  last_period_end_on : Option String
  overdue : Bool
  next_overdue : Bool
  next_due_on : Option String
  next_next_due : Option String
deriving DecidableEq

/-- Profile `confirmation_statement` sub-record fields. -/
structure ConfInfo where
  last_made_up_to : Option String
  overdue : Bool
  next_due : Option String
deriving DecidableEq

structure Candidate where
  company_number : String
  company_name : Option String
  date_of_creation : Option String
  sic_codes : List String
  directors : List Officer
  ro_postal_code : Option String
  ro_postcode : Option String
  has_insolvency_history : Bool
  has_charges : Bool
  undeliverable_ro : Bool
  office_in_dispute : Bool
  accounts : AccountsInfo
  confirmation : ConfInfo
  fin : FinOut
  pscs : List Psc
  charges : Option ℕ
deriving DecidableEq

/-- The keyword configuration of `find_targets` (the `size`/`pages`
pagination parameters are realised by the shape of the input pages). -/
structure Config where
  min_age : ℤ := 55
  max_directors : ℕ := 2
  limit_companies : ℕ := 120
  fetch_financials : Bool := false
  financials_top_n : ℕ := 40
  min_employees : ℕ := 0
  min_years_trading : ℤ := 0
  fetch_psc : Bool := false
  psc_min_age : ℤ := 0
  psc_max_count : ℕ := 2
  require_accounts_within_months : Option ℤ := none
  exclude_overdue_accounts : Bool := false
  require_confirmation_within_months : Option ℤ := none
  exclude_overdue_confirmation : Bool := false
  exclude_insolvency_history : Bool := false
  exclude_undeliverable_address : Bool := false
  exclude_office_in_dispute : Bool := false
  fetch_charges_count : Bool := false
  charges_top_n : ℕ := 50
  max_outstanding_charges : Option ℕ := none
deriving DecidableEq

/-- One emitted result record (the dict of lines 518-558; the two stored
date strings are kept as parsed dates, the `google` link is omitted). -/
structure Rec where
  company_number : String
  company_name : Option String
  incorporated : Option String
  years_trading : Option ℤ
  sic_codes : String
  active_directors : ℕ
  director_ages : String
  avg_director_age : Option ℚ
  avg_psc_age : Option ℚ
  postcode : Option String
  turnover : Option ℚ
  profit : Option ℚ
  employees : Option ℚ
  psc_count : Option ℕ
  psc_ages : Option String
  last_accounts_made_up_to : Option Date
  months_since_accounts : Option ℤ
  accounts_overdue : Bool
  next_accounts_due : Option String
  confirmation_last_made_up_to : Option Date
  months_since_confirmation : Option ℤ
  confirmation_overdue : Bool
  next_confirmation_due : Option String
  has_insolvency_history : Bool
  has_charges : Bool
  undeliverable_registered_office_address : Bool
  registered_office_is_in_dispute : Bool
  outstanding_charges : Option ℕ
  ch_link : String
deriving DecidableEq

/-- `years` computed from `date_of_creation` (lines 390-398): tuple
comparison of `(t.month, t.day) < (m, d)`, unparseable input gives
`None`. -/
def yearsTradingOf (today : Date) (c : Candidate) : Option ℤ :=
  match c.date_of_creation with
  | none => none
  | some s =>
    match parseDateTriple s with
    | none => none
    | some (yy, mm, dd) =>
      some (today.y - yy -
        (if today.m < mm ∨ (today.m = mm ∧ today.d < dd) then 1 else 0))

def dirAgesOf (today : Date) (c : Candidate) : List (Option ℤ) :=
  c.directors.map fun d => approx_age today d.dob

/-- Gate of line 399: `min_years_trading and (years is None or years < min_years_trading)`.
A `continue` that does NOT touch the `processed` counter. -/
def yearsGate (cfg : Config) (today : Date) (c : Candidate) : Bool :=
  decide (cfg.min_years_trading ≠ 0) &&
    (match yearsTradingOf today c with
     | none => true
     | some v => decide (v < cfg.min_years_trading))

/-- Gate of line 404: `not directors or len(directors) > max_directors`.
Also bypasses the `processed` counter. -/
def directorsGate (cfg : Config) (c : Candidate) : Bool :=
  decide (c.directors = []) || decide (cfg.max_directors < c.directors.length)

/-- Gate of line 407: `any(a is None or a < min_age for a in dir_ages)`.
Also bypasses the `processed` counter. -/
def dirAgeGate (cfg : Config) (today : Date) (c : Candidate) : Bool :=
  (dirAgesOf today c).any fun a =>
    match a with
    | none => true
    | some v => decide (v < cfg.min_age)

/-- `round(sum(known ages) / len(dir_ages), 1)` (line 409); float division. -/
def avgAge (ages : List (Option ℤ)) : Option ℚ :=
  if ages = [] then none
  else some (round1 ((((ages.filterMap id).foldl (fun a b => a + b) 0 : ℤ) : ℚ) / (ages.length : ℚ)))

/-- The financials actually used for this candidate (lines 482-484): only
fetched when requested and still under the financials sub-cap. -/
def finFor (cfg : Config) (processed : ℕ) (c : Candidate) : FinOut :=
  if cfg.fetch_financials && decide (processed < cfg.financials_top_n) then c.fin
  else ⟨none, none, none⟩

/-- Gate of lines 485-487: rejects only when the employee figure is
*known* and below the floor. -/
def employeesGate (cfg : Config) (processed : ℕ) (c : Candidate) : Bool :=
  cfg.fetch_financials && decide (processed < cfg.financials_top_n) &&
    decide (cfg.min_employees ≠ 0) &&
    (match (finFor cfg processed c).employees with
     | some e => decide (e < (cfg.min_employees : ℚ))
     | none => false)

inductive StepOut where
  /-- `continue` without `processed += 1` (lines 399, 404, 407). -/
  | skip
  /-- `processed += 1; continue`. -/
  | reject
  /-- append the record, then `processed += 1`. -/
  | accept (r : Rec)
deriving DecidableEq

/-- Risk-flag gate of lines 422-424. -/
def insolvencyGate (cfg : Config) (c : Candidate) : Bool :=
  cfg.exclude_insolvency_history && c.has_insolvency_history

/-- Risk-flag gate of lines 425-427. -/
def undeliverableGate (cfg : Config) (c : Candidate) : Bool :=
  cfg.exclude_undeliverable_address && c.undeliverable_ro

/-- Risk-flag gate of lines 428-430. -/
def disputeGate (cfg : Config) (c : Candidate) : Bool :=
  cfg.exclude_office_in_dispute && c.office_in_dispute

/-- `last_made_date` (lines 433-442): `made_up_to or period_end_on`,
truthy, parsed as a date with failures swallowed. -/
def lastMadeDateOf (c : Candidate) : Option Date :=
  match pyOrStr c.accounts.last_made_up_to c.accounts.last_period_end_on with
  | none => none
  | some s => if s = "" then none else parsePyDate s

def monthsSinceAccountsOf (today : Date) (c : Candidate) : Option ℤ :=
  (lastMadeDateOf c).map fun dd => months_between dd today

/-- `accounts_overdue` (line 446). -/
def accountsOverdueOf (c : Candidate) : Bool :=
  c.accounts.overdue || c.accounts.next_overdue

/-- Gate of lines 449-451. -/
def accountsOverdueGate (cfg : Config) (c : Candidate) : Bool :=
  cfg.exclude_overdue_accounts && accountsOverdueOf c

/-- Gate of lines 452-455: a recency requirement fails on a missing or
too-old last-accounts date. -/
def accountsFreshGate (cfg : Config) (today : Date) (c : Candidate) : Bool :=
  match cfg.require_accounts_within_months with
  | some k =>
    (match monthsSinceAccountsOf today c with
     | none => true
     | some ms => decide (k < ms))
  | none => false

/-- `conf_last_date` (lines 458-466). -/
def confLastDateOf (c : Candidate) : Option Date :=
  match c.confirmation.last_made_up_to with
  | none => none
  | some s => if s = "" then none else parsePyDate s

def monthsSinceConfOf (today : Date) (c : Candidate) : Option ℤ :=
  (confLastDateOf c).map fun dd => months_between dd today

/-- Gate of lines 473-475. -/
def confOverdueGate (cfg : Config) (c : Candidate) : Bool :=
  cfg.exclude_overdue_confirmation && c.confirmation.overdue

/-- Gate of lines 476-479. -/
def confFreshGate (cfg : Config) (today : Date) (c : Candidate) : Bool :=
  match cfg.require_confirmation_within_months with
  | some k =>
    (match monthsSinceConfOf today c with
     | none => true
     | some ms => decide (k < ms))
  | none => false

/-- Known PSC ages (line 496). -/
def pscAgesOf (today : Date) (c : Candidate) : List ℤ :=
  (c.pscs.map fun p => approx_age today p.dob).filterMap id

/-- Gate of lines 497-499 (only reachable with `fetch_psc`). -/
def pscCountGate (cfg : Config) (c : Candidate) : Bool :=
  cfg.fetch_psc && decide (cfg.psc_max_count ≠ 0) &&
    decide (cfg.psc_max_count < c.pscs.length)

/-- Gate of lines 500-502. -/
def pscAgeGate (cfg : Config) (today : Date) (c : Candidate) : Bool :=
  cfg.fetch_psc && decide (cfg.psc_min_age ≠ 0) &&
    (decide (pscAgesOf today c = []) ||
      (pscAgesOf today c).any fun a => decide (a < cfg.psc_min_age))

/-- `outstanding_charges` (lines 507-509). -/
def outstandingFor (cfg : Config) (processed : ℕ) (c : Candidate) : Option ℕ :=
  if cfg.fetch_charges_count && decide (processed < cfg.charges_top_n) then c.charges
  else none

/-- Gate of lines 510-513. -/
def chargesGate (cfg : Config) (processed : ℕ) (c : Candidate) : Bool :=
  cfg.fetch_charges_count && decide (processed < cfg.charges_top_n) &&
    (match cfg.max_outstanding_charges, outstandingFor cfg processed c with
     | some mk, some oc => decide (mk < oc)
     | _, _ => false)

/-- The record appended at lines 518-558 for a candidate that passed
every gate. -/
def acceptRec (cfg : Config) (today : Date) (processed : ℕ) (c : Candidate) : Rec :=
  let dir_ages := dirAgesOf today c
  let fin := finFor cfg processed c
  let psc_ages := if cfg.fetch_psc then pscAgesOf today c else []
  { company_number := c.company_number
    company_name := c.company_name
    incorporated := c.date_of_creation
    years_trading := yearsTradingOf today c
    sic_codes := String.intercalate "," c.sic_codes
    active_directors := c.directors.length
    director_ages := String.intercalate "," ((dir_ages.filterMap id).map toString)
    avg_director_age := avgAge dir_ages
    avg_psc_age :=
      if cfg.fetch_psc ∧ psc_ages ≠ [] then
        some (round1 (((psc_ages.foldl (fun a b => a + b) 0 : ℤ) : ℚ) / (psc_ages.length : ℚ)))
      else none
    postcode := pyOrStr c.ro_postal_code c.ro_postcode
    turnover := fin.turnover
    profit := fin.profit
    employees := fin.employees
    psc_count := if cfg.fetch_psc then some c.pscs.length else none
    psc_ages :=
      if psc_ages = [] then none
      else some (String.intercalate "," (psc_ages.map toString))
    last_accounts_made_up_to := lastMadeDateOf c
    months_since_accounts := monthsSinceAccountsOf today c
    accounts_overdue := accountsOverdueOf c
    next_accounts_due := pyOrStr c.accounts.next_due_on c.accounts.next_next_due
    confirmation_last_made_up_to := confLastDateOf c
    months_since_confirmation := monthsSinceConfOf today c
    confirmation_overdue := c.confirmation.overdue
    next_confirmation_due := c.confirmation.next_due
    has_insolvency_history := c.has_insolvency_history
    has_charges := c.has_charges
    undeliverable_registered_office_address := c.undeliverable_ro
    registered_office_is_in_dispute := c.office_in_dispute
    outstanding_charges := outstandingFor cfg processed c
    ch_link :=
      "https://find-and-update.company-information.service.gov.uk/company/"
        ++ c.company_number }

/-- The body of the per-candidate loop (lines 385-560), from the check
against `limit_companies` (exclusive) to the record append: the gate
chain in source order, each gate a named definition above. -/
def stepCandidate (cfg : Config) (today : Date) (processed : ℕ) (c : Candidate) : StepOut :=
  if yearsGate cfg today c then .skip
  else if directorsGate cfg c then .skip
  else if dirAgeGate cfg today c then .skip
  else if insolvencyGate cfg c then .reject
  else if undeliverableGate cfg c then .reject
  else if disputeGate cfg c then .reject
  else if accountsOverdueGate cfg c then .reject
  else if accountsFreshGate cfg today c then .reject
  else if confOverdueGate cfg c then .reject
  else if confFreshGate cfg today c then .reject
  else if employeesGate cfg processed c then .reject
  else if pscCountGate cfg c then .reject
  else if pscAgeGate cfg today c then .reject
  else if chargesGate cfg processed c then .reject
  else .accept (acceptRec cfg today processed c)

/-- Loop state; `examined` is ghost instrumentation counting candidates
that entered the loop body past the `limit_companies` check (the code has
no such variable — it witnesses how many candidates a run scans). -/
structure RunSt where
  processed : ℕ
  results : List Rec
  examined : ℕ
deriving DecidableEq

/-- Inner `for c in items` loop.  The boolean is true when the loop
executed `return results` (cap reached), which must also abort the outer
page loop. -/
def runItems (cfg : Config) (today : Date) : RunSt → List Candidate → RunSt × Bool
  | st, [] => (st, false)
  | st, c :: rest =>
    if cfg.limit_companies ≤ st.processed then (st, true)
    else
      match stepCandidate cfg today st.processed c with
      | .skip => runItems cfg today { st with examined := st.examined + 1 } rest
      | .reject =>
        runItems cfg today
          { st with processed := st.processed + 1, examined := st.examined + 1 } rest
      | .accept r =>
        runItems cfg today
          { st with
              processed := st.processed + 1
              results := st.results ++ [r]
              examined := st.examined + 1 } rest

/-- Outer `for _ in range(pages)` loop; an empty page breaks. -/
def runPages (cfg : Config) (today : Date) : RunSt → List (List Candidate) → RunSt
  | st, [] => st
  | st, page :: rest =>
    if page = [] then st
    else
      match runItems cfg today st page with
      | (st1, true) => st1
      | (st1, false) => runPages cfg today st1 rest

def findTargetsStats (cfg : Config) (today : Date) (pages : List (List Candidate)) : RunSt :=
  runPages cfg today ⟨0, [], 0⟩ pages

def find_targets (cfg : Config) (today : Date) (pages : List (List Candidate)) : List Rec :=
  (findTargetsStats cfg today pages).results

/-! ### Scoring (`app.py` lines 115-140) -/

/-- `_norm` (app.py lines 115-121); the float-`NaN` guard coincides with
`none` in the `Option` model. -/
def _norm (x : Option ℚ) (lo hi : ℚ) : Option ℚ :=
  match x with
  | none => none
  | some v => if hi = lo then some 0 else some ((max lo (min hi v) - lo) / (hi - lo))

/-- The per-row inputs `add_boomer_score` reads from the dataframe. -/
structure ScoreRow where
  avg_director_age : Option ℚ
  avg_psc_age : Option ℚ
  years_trading : Option ℚ
  employees : Option ℚ
  turnover : Option ℚ
  distance_km : Option ℚ
deriving DecidableEq

structure Weights where
  w_dir : ℚ
  w_psc : ℚ
  w_year : ℚ
  w_emp : ℚ
  w_turn : ℚ
  w_dist : ℚ
deriving DecidableEq

def weightsList (w : Weights) : List ℚ :=
  [w.w_dir, w.w_psc, w.w_year, w.w_emp, w.w_turn, w.w_dist]

def sumWeights (w : Weights) : ℚ := (weightsList w).foldl (fun a b => a + b) 0

/-- The six normalized feature parts of one row (app.py lines 125-135):
PSC age falls back to director age when unknown; nearness only when a
radius was used (Python truthiness: `radius_used` not `None` and not 0)
and the distance column exists. -/
def scoreParts (radius_used : Option ℚ) (r : ScoreRow) : List (Option ℚ) :=
  let dir_age := _norm r.avg_director_age 55 85
  let psc_base := match r.avg_psc_age with | some a => some a | none => r.avg_director_age
  let psc_age := _norm psc_base 55 85
  let years := _norm r.years_trading 5 30
  let emps := _norm r.employees 1 100
  let turn := _norm r.turnover 100000 5000000
  let near :=
    match radius_used with
    | some rad =>
      if rad ≠ 0 then r.distance_km.map (fun d => max 0 (1 - min (d / rad) 1)) else none
    | none => none
  [dir_age, psc_age, years, emps, turn, near]

/-- `sum(w * p for w, p in zip(weights, parts))` after `fillna(0.0)`. -/
def dotScore (w : Weights) (parts : List (Option ℚ)) : ℚ :=
  (((weightsList w).zip parts).foldl (fun acc p => acc + p.1 * p.2.getD 0) 0)

/-- `add_boomer_score` for one row (app.py lines 134-139): the
denominator is `sum(weights)` when that is positive, else `1.0`; the
result is rounded to one decimal. -/
def add_boomer_score (w : Weights) (radius_used : Option ℚ) (r : ScoreRow) : ℚ :=
  let total_w := if 0 < sumWeights w then sumWeights w else 1
  round1 (100 * dotScore w (scoreParts radius_used r) / total_w)

/-- The scoring formula as the spec words it, for comparison: the
total-weight denominator "floored at 1", i.e. `max (Σ weight) 1`. -/
def boomerScoreSpecFloor (w : Weights) (radius_used : Option ℚ) (r : ScoreRow) : ℚ :=
  round1 (100 * dotScore w (scoreParts radius_used r) / max (sumWeights w) 1)

/-! ## Shared concrete inputs for witnesses and counterexamples -/

def today1 : Date := ⟨2025, 10, 12⟩

def accts0 : AccountsInfo := ⟨none, none, false, false, none, none⟩

def conf0 : ConfInfo := ⟨none, false, none⟩

/-- A permissive candidate: one director aged 70, clean profile. -/
def cand1 : Candidate :=
  { company_number := "01"
    company_name := some "ACME"
    date_of_creation := some "2005-03-01"
    sic_codes := ["10110"]
    directors := [⟨some "D ONE", some (1955, some 1)⟩]
    ro_postal_code := some "WA13 0AG"
    ro_postcode := none
    has_insolvency_history := false
    has_charges := false
    undeliverable_ro := false
    office_in_dispute := false
    accounts := accts0
    confirmation := conf0
    fin := ⟨none, none, none⟩
    pscs := []
    charges := none }

def row1 : Row := { company_number := "01", postcode := some "PC1" }

/-! ## C10 -/

/-- Claim C10: `filter_by_radius` returns the input list itself, unchanged,
whenever the row list is empty, the centre postcode is the empty string,
or the radius is non-positive — the filter is bypassed entirely rather
than failing closed (lines 310-312). -/
theorem C10_radius_bypass (hav : ℚ → ℚ → ℚ → ℚ → ℚ) (centreRes : Option ℚ × Option ℚ)
    (geo : String → Option ℚ × Option ℚ) (rows : List Row) (centre : String) (radius : ℚ)
    (h : rows = [] ∨ centre = "" ∨ radius ≤ 0) :
    filter_by_radius hav centreRes geo rows centre radius = rows := by
  unfold filter_by_radius
  rw [if_pos h]

/-- Witness for C10 at a non-positive radius with a non-empty row list. -/
theorem C10_witness :
    filter_by_radius (fun _ _ _ _ => 0) (some 0, some 0) (fun _ => (none, none))
      [row1] "NN1 1AA" (-1) = [row1] :=
  C10_radius_bypass _ _ _ _ _ _ (Or.inr (Or.inr (by norm_num)))

/-! ## C7 -/

/-- Claim C7: with a non-empty row list, a non-empty centre postcode and a
positive radius, an unresolvable centre (either coordinate missing) makes
`filter_by_radius` return the empty list, never the unfiltered input
(lines 313-320). -/
theorem C7_fail_closed (hav : ℚ → ℚ → ℚ → ℚ → ℚ) (centreRes : Option ℚ × Option ℚ)
    (geo : String → Option ℚ × Option ℚ) (rows : List Row) (centre : String) (radius : ℚ)
    (hrows : rows ≠ []) (hc : centre ≠ "") (hr : 0 < radius)
    (hunres : centreRes.1 = none ∨ centreRes.2 = none) :
    filter_by_radius hav centreRes geo rows centre radius = [] ∧
      filter_by_radius hav centreRes geo rows centre radius ≠ rows := by
  have hcond : ¬(rows = [] ∨ centre = "" ∨ radius ≤ 0) := by
    push_neg
    exact ⟨hrows, hc, by linarith⟩
  have hempty : filter_by_radius hav centreRes geo rows centre radius = [] := by
    unfold filter_by_radius
    rw [if_neg hcond]
    obtain ⟨a, b⟩ := centreRes
    rcases a with _ | la
    · rfl
    · rcases b with _ | lb
      · rfl
      · simp at hunres
  refine ⟨hempty, ?_⟩
  rw [hempty]
  intro hthis
  exact hrows hthis.symm

/-- Witness for C7: one row, resolvable postcodes, but no centre fix. -/
theorem C7_witness :
    filter_by_radius (fun _ _ _ _ => 1) (none, some 0) (fun _ => (some 0, some 0))
      [row1] "NN1 1AA" 25 = [] ∧
    filter_by_radius (fun _ _ _ _ => 1) (none, some 0) (fun _ => (some 0, some 0))
      [row1] "NN1 1AA" 25 ≠ [row1] :=
  C7_fail_closed _ _ _ _ _ _ (by simp) (by simp) (by norm_num) (Or.inl rfl)

/-! ## C8 -/

/-- Counterexample to claim C8: a rate-limit response whose `Retry-After`
header is not an integer string makes `int()` raise `ValueError` before
any sleep and before any retry — there is no "exactly one sleep followed
by exactly one retry" on this request. -/
theorem C8_counterexample :
    (_request ⟨429, some "later"⟩ ⟨200, none⟩).1 = [] ∧
      (_request ⟨429, some "later"⟩ ⟨200, none⟩).2 = .valueError :=
  ⟨rfl, rfl⟩

/-- Claim C8 (amended): when the first response carries a retryable
status and its `Retry-After` header (or the `"5"` fallback) parses under
Python `int()` to a *non-negative* duration, `_request` sleeps exactly
once for that duration and retries exactly once, propagating the second
response through `raise_for_status`; a still-erroring second response is
raised, not retried again.  A negative parsed duration makes
`time.sleep` raise `ValueError` with no retry.  A non-retryable first
status is passed through directly. -/
theorem C8_retry_amended :
    (∀ r1 r2 : Resp, r1.status ∈ RETRY_STATUSES →
      ∀ n, parseIntPy (r1.retryAfter.getD "5") = some n → 0 ≤ n →
        _request r1 r2 = ([n], raiseForStatus r2)) ∧
    (∀ r1 r2 : Resp, r1.status ∈ RETRY_STATUSES → 400 ≤ r2.status →
      ∀ n, parseIntPy (r1.retryAfter.getD "5") = some n → 0 ≤ n →
        (_request r1 r2).2 = .httpError r2) ∧
    (∀ r1 r2 : Resp, r1.status ∈ RETRY_STATUSES →
      ∀ n, parseIntPy (r1.retryAfter.getD "5") = some n → n < 0 →
        _request r1 r2 = ([], .valueError)) ∧
    (∀ r1 r2 : Resp, r1.status ∉ RETRY_STATUSES →
      _request r1 r2 = ([], raiseForStatus r1)) := by
  refine ⟨?_, ?_, ?_, ?_⟩
  · intro r1 r2 hs n hn hnn
    unfold _request
    rw [if_pos hs, hn]
    show (if n < 0 then (([] : List ℤ), ReqOutcome.valueError)
        else ([n], raiseForStatus r2)) = ([n], raiseForStatus r2)
    rw [if_neg (not_lt.mpr hnn)]
  · intro r1 r2 hs herr n hn hnn
    unfold _request
    rw [if_pos hs, hn]
    show (if n < 0 then (([] : List ℤ), ReqOutcome.valueError)
        else ([n], raiseForStatus r2)).2 = ReqOutcome.httpError r2
    rw [if_neg (not_lt.mpr hnn)]
    show raiseForStatus r2 = ReqOutcome.httpError r2
    unfold raiseForStatus
    rw [if_pos herr]
  · intro r1 r2 hs n hn hneg
    unfold _request
    rw [if_pos hs, hn]
    show (if n < 0 then (([] : List ℤ), ReqOutcome.valueError)
        else ([n], raiseForStatus r2)) = ([], ReqOutcome.valueError)
    rw [if_pos hneg]
  · intro r1 r2 hs
    unfold _request
    rw [if_neg hs]

/-- Witness for C8: a 429 with `Retry-After: 7` sleeps `[7]` and retries
(the retried 500 is raised); `Retry-After: 1_0` parses to 10 and sleeps
`[10]`; `Retry-After: -1` raises with no retry; a 200 passes through. -/
theorem C8_witness :
    _request ⟨429, some "7"⟩ ⟨500, none⟩ = ([7], raiseForStatus ⟨500, none⟩) ∧
      (_request ⟨429, some "7"⟩ ⟨500, none⟩).2 = .httpError ⟨500, none⟩ ∧
      _request ⟨429, some "1_0"⟩ ⟨503, none⟩ = ([10], raiseForStatus ⟨503, none⟩) ∧
      _request ⟨429, some "-1"⟩ ⟨200, none⟩ = ([], .valueError) ∧
      _request ⟨200, none⟩ ⟨500, none⟩ = ([], raiseForStatus ⟨200, none⟩) :=
  ⟨C8_retry_amended.1 ⟨429, some "7"⟩ ⟨500, none⟩ (by decide) 7 rfl (by decide),
   C8_retry_amended.2.1 ⟨429, some "7"⟩ ⟨500, none⟩ (by decide) (by norm_num) 7 rfl (by decide),
   C8_retry_amended.1 ⟨429, some "1_0"⟩ ⟨503, none⟩ (by decide) 10 rfl (by decide),
   C8_retry_amended.2.2.1 ⟨429, some "-1"⟩ ⟨200, none⟩ (by decide) (-1) (by decide) (by decide),
   C8_retry_amended.2.2.2 ⟨200, none⟩ ⟨500, none⟩ (by decide)⟩

/-! ## C9 -/

/-- `findSome?` returns `some v` when some element maps to `some v` and
every element maps to `none` or to `some v`. -/
theorem findSome?_eq_some_of_forall {α β : Type} (l : List α) (f : α → Option β) (v : β)
    (hex : ∃ x ∈ l, f x = some v) (hall : ∀ x ∈ l, f x = none ∨ f x = some v) :
    l.findSome? f = some v := by
  induction l with
  | nil => simp at hex
  | cons a t ih =>
    rcases hall a (by simp) with ha | ha
    · rw [List.findSome?_cons, ha]
      apply ih
      · rcases hex with ⟨x, hx, hfx⟩
        rcases List.mem_cons.mp hx with hx | hx
        · subst hx
          rw [ha] at hfx
          cases hfx
        · exact ⟨x, hx, hfx⟩
      · intro x hx
        exact hall x (List.mem_cons_of_mem a hx)
    · rw [List.findSome?_cons, ha]

/-- Claim C9: extraction over a fetched (non-PDF, parseable) document
whose only recognized tag occurrence is `<Revenue>250000</Revenue>`
yields `turnover = 250000`, `profit = none`, `employees = none`
(lines 221-256 and the tag tables at lines 171-189). -/
theorem C9_revenue_extraction (docId : String) (root : List Elem)
    (hdoc : docId ≠ "")
    (hmem : (⟨"Revenue", some "250000"⟩ : Elem) ∈ root)
    (hturn : ∀ e ∈ root, e.tag ∈ TURNOVER_TAGS → e = ⟨"Revenue", some "250000"⟩)
    (hprof : ∀ e ∈ root, e.tag ∉ PROFIT_TAGS)
    (hemp : ∀ e ∈ root, e.tag ∉ EMPLOYEE_TAGS) :
    extractFinancials (some docId) (some ("text/html", some root)) =
      ⟨some 250000, none, none⟩ := by
  simp only [extractFinancials]
  rw [if_neg hdoc, if_neg (by decide : ¬("text/html" : String) = "application/pdf")]
  unfold extractFromDoc
  have hT : pick root TURNOVER_TAGS = some 250000 := by
    unfold pick
    rw [if_neg (by decide : ¬TURNOVER_TAGS = [])]
    have hval : pyNum (String.mk (pyStrip ((some "250000" : Option String).getD "").data)) =
        some ((250000 : ℕ) : ℚ) := rfl
    have h250 :
        (fun n : Elem =>
          if n.tag ∈ TURNOVER_TAGS then pyNum (String.mk (pyStrip (n.text.getD "").data))
          else none) ⟨"Revenue", some "250000"⟩ = some 250000 := by
      show (if ("Revenue" : String) ∈ TURNOVER_TAGS then
              pyNum (String.mk (pyStrip ((some "250000" : Option String).getD "").data))
            else none) = some 250000
      rw [if_pos (by decide : ("Revenue" : String) ∈ TURNOVER_TAGS), hval]
      norm_num
    apply findSome?_eq_some_of_forall
    · exact ⟨_, hmem, h250⟩
    · intro e he
      by_cases ht : e.tag ∈ TURNOVER_TAGS
      · right
        rw [hturn e he ht]
        exact h250
      · left
        simp [ht]
  have hP : pick root PROFIT_TAGS = none := by
    unfold pick
    rw [if_neg (by decide : ¬PROFIT_TAGS = [])]
    rw [List.findSome?_eq_none_iff]
    intro e he
    simp [hprof e he]
  have hE : pick root EMPLOYEE_TAGS = none := by
    unfold pick
    rw [if_neg (by decide : ¬EMPLOYEE_TAGS = [])]
    rw [List.findSome?_eq_none_iff]
    intro e he
    simp [hemp e he]
  rw [hT, hP, hE]

/-- Witness for C9: the concrete one-element document. -/
theorem C9_witness :
    extractFinancials (some "docid1") (some ("text/html", some [⟨"Revenue", some "250000"⟩])) =
      ⟨some 250000, none, none⟩ :=
  C9_revenue_extraction "docid1" [⟨"Revenue", some "250000"⟩] (by decide) (by decide)
    (by decide) (by decide) (by decide)

/-! ## Structural lemmas about the candidate pipeline -/

/-- An accepted candidate yields exactly `acceptRec`, and in particular
the employee-floor gate evaluated to false. -/
theorem stepCandidate_accept_inv (cfg : Config) (today : Date) (p : ℕ) (c : Candidate)
    (r : Rec) (h : stepCandidate cfg today p c = .accept r) :
    r = acceptRec cfg today p c ∧ employeesGate cfg p c = false := by
  unfold stepCandidate at h
  by_cases h1 : yearsGate cfg today c = true
  · rw [if_pos h1] at h
    exact StepOut.noConfusion h
  rw [if_neg h1] at h
  by_cases h2 : directorsGate cfg c = true
  · rw [if_pos h2] at h
    exact StepOut.noConfusion h
  rw [if_neg h2] at h
  by_cases h3 : dirAgeGate cfg today c = true
  · rw [if_pos h3] at h
    exact StepOut.noConfusion h
  rw [if_neg h3] at h
  by_cases h4 : insolvencyGate cfg c = true
  · rw [if_pos h4] at h
    exact StepOut.noConfusion h
  rw [if_neg h4] at h
  by_cases h5 : undeliverableGate cfg c = true
  · rw [if_pos h5] at h
    exact StepOut.noConfusion h
  rw [if_neg h5] at h
  by_cases h6 : disputeGate cfg c = true
  · rw [if_pos h6] at h
    exact StepOut.noConfusion h
  rw [if_neg h6] at h
  by_cases h7 : accountsOverdueGate cfg c = true
  · rw [if_pos h7] at h
    exact StepOut.noConfusion h
  rw [if_neg h7] at h
  by_cases h8 : accountsFreshGate cfg today c = true
  · rw [if_pos h8] at h
    exact StepOut.noConfusion h
  rw [if_neg h8] at h
  by_cases h9 : confOverdueGate cfg c = true
  · rw [if_pos h9] at h
    exact StepOut.noConfusion h
  rw [if_neg h9] at h
  by_cases h10 : confFreshGate cfg today c = true
  · rw [if_pos h10] at h
    exact StepOut.noConfusion h
  rw [if_neg h10] at h
  by_cases h11 : employeesGate cfg p c = true
  · rw [if_pos h11] at h
    exact StepOut.noConfusion h
  rw [if_neg h11] at h
  by_cases h12 : pscCountGate cfg c = true
  · rw [if_pos h12] at h
    exact StepOut.noConfusion h
  rw [if_neg h12] at h
  by_cases h13 : pscAgeGate cfg today c = true
  · rw [if_pos h13] at h
    exact StepOut.noConfusion h
  rw [if_neg h13] at h
  by_cases h14 : chargesGate cfg p c = true
  · rw [if_pos h14] at h
    exact StepOut.noConfusion h
  rw [if_neg h14] at h
  refine ⟨(StepOut.accept.inj h).symm, ?_⟩
  cases hB : employeesGate cfg p c with
  | false => rfl
  | true => exact absurd hB h11

/-- A `skip` outcome (no counter advance) happens only at the three early
gates. -/
theorem stepCandidate_skip_inv (cfg : Config) (today : Date) (p : ℕ) (c : Candidate)
    (h : stepCandidate cfg today p c = .skip) :
    yearsGate cfg today c = true ∨ directorsGate cfg c = true ∨
      dirAgeGate cfg today c = true := by
  unfold stepCandidate at h
  by_cases h1 : yearsGate cfg today c = true
  · exact .inl h1
  rw [if_neg h1] at h
  by_cases h2 : directorsGate cfg c = true
  · exact .inr (.inl h2)
  rw [if_neg h2] at h
  by_cases h3 : dirAgeGate cfg today c = true
  · exact .inr (.inr h3)
  rw [if_neg h3] at h
  by_cases h4 : insolvencyGate cfg c = true
  · rw [if_pos h4] at h
    exact StepOut.noConfusion h
  rw [if_neg h4] at h
  by_cases h5 : undeliverableGate cfg c = true
  · rw [if_pos h5] at h
    exact StepOut.noConfusion h
  rw [if_neg h5] at h
  by_cases h6 : disputeGate cfg c = true
  · rw [if_pos h6] at h
    exact StepOut.noConfusion h
  rw [if_neg h6] at h
  by_cases h7 : accountsOverdueGate cfg c = true
  · rw [if_pos h7] at h
    exact StepOut.noConfusion h
  rw [if_neg h7] at h
  by_cases h8 : accountsFreshGate cfg today c = true
  · rw [if_pos h8] at h
    exact StepOut.noConfusion h
  rw [if_neg h8] at h
  by_cases h9 : confOverdueGate cfg c = true
  · rw [if_pos h9] at h
    exact StepOut.noConfusion h
  rw [if_neg h9] at h
  by_cases h10 : confFreshGate cfg today c = true
  · rw [if_pos h10] at h
    exact StepOut.noConfusion h
  rw [if_neg h10] at h
  by_cases h11 : employeesGate cfg p c = true
  · rw [if_pos h11] at h
    exact StepOut.noConfusion h
  rw [if_neg h11] at h
  by_cases h12 : pscCountGate cfg c = true
  · rw [if_pos h12] at h
    exact StepOut.noConfusion h
  rw [if_neg h12] at h
  by_cases h13 : pscAgeGate cfg today c = true
  · rw [if_pos h13] at h
    exact StepOut.noConfusion h
  rw [if_neg h13] at h
  by_cases h14 : chargesGate cfg p c = true
  · rw [if_pos h14] at h
    exact StepOut.noConfusion h
  rw [if_neg h14] at h
  exact StepOut.noConfusion h

/-- Emitted records come from an accepting `stepCandidate` run. -/
theorem mem_runItems (cfg : Config) (today : Date) :
    ∀ (items : List Candidate) (st : RunSt) (r : Rec),
      r ∈ ((runItems cfg today st items).1).results →
      r ∈ st.results ∨ ∃ p c, stepCandidate cfg today p c = .accept r := by
  intro items
  induction items with
  | nil =>
    intro st r h
    simp only [runItems] at h
    exact .inl h
  | cons c rest ih =>
    intro st r h
    by_cases hcap : cfg.limit_companies ≤ st.processed
    · simp only [runItems, if_pos hcap] at h
      exact .inl h
    · rw [runItems, if_neg hcap] at h
      cases hstep : stepCandidate cfg today st.processed c with
      | skip =>
        simp only [hstep] at h
        exact ih { st with examined := st.examined + 1 } r h
      | reject =>
        simp only [hstep] at h
        exact ih { st with processed := st.processed + 1, examined := st.examined + 1 } r h
      | accept r0 =>
        simp only [hstep] at h
        rcases ih
            { st with
                processed := st.processed + 1
                results := st.results ++ [r0]
                examined := st.examined + 1 } r h with h2 | h2
        · rcases List.mem_append.mp h2 with hh | hh
          · exact .inl hh
          · rw [List.mem_singleton] at hh
            subst hh
            exact .inr ⟨st.processed, c, hstep⟩
        · exact .inr h2

theorem mem_runPages (cfg : Config) (today : Date) :
    ∀ (pages : List (List Candidate)) (st : RunSt) (r : Rec),
      r ∈ (runPages cfg today st pages).results →
      r ∈ st.results ∨ ∃ p c, stepCandidate cfg today p c = .accept r := by
  intro pages
  induction pages with
  | nil =>
    intro st r h
    simp only [runPages] at h
    exact .inl h
  | cons page rest ih =>
    intro st r h
    by_cases hpage : page = []
    · rw [runPages, if_pos hpage] at h
      exact .inl h
    · rw [runPages, if_neg hpage] at h
      rcases hq : runItems cfg today st page with ⟨st1, b⟩
      rw [hq] at h
      have hst1 : st1 = (runItems cfg today st page).1 := by rw [hq]
      cases b with
      | true =>
        simp only at h
        rw [hst1] at h
        exact mem_runItems cfg today page st r h
      | false =>
        simp only at h
        rcases ih st1 r h with h2 | h2
        · rw [hst1] at h2
          exact mem_runItems cfg today page st r h2
        · exact .inr h2

theorem mem_find_targets (cfg : Config) (today : Date) (pages : List (List Candidate))
    (r : Rec) (h : r ∈ find_targets cfg today pages) :
    ∃ p c, stepCandidate cfg today p c = .accept r := by
  have h2 := mem_runPages cfg today pages ⟨0, [], 0⟩ r h
  simpa using h2

/-- The result list never outgrows the processed counter, and the
processed counter never passes the cap. -/
theorem runItems_bound (cfg : Config) (today : Date) :
    ∀ (items : List Candidate) (st : RunSt),
      st.results.length ≤ st.processed → st.processed ≤ cfg.limit_companies →
      (runItems cfg today st items).1.results.length ≤ (runItems cfg today st items).1.processed ∧
        (runItems cfg today st items).1.processed ≤ cfg.limit_companies := by
  intro items
  induction items with
  | nil =>
    intro st h1 h2
    simp only [runItems]
    exact ⟨h1, h2⟩
  | cons c rest ih =>
    intro st h1 h2
    by_cases hcap : cfg.limit_companies ≤ st.processed
    · simp only [runItems, if_pos hcap]
      exact ⟨h1, h2⟩
    · rw [runItems, if_neg hcap]
      have hlt : st.processed < cfg.limit_companies := by omega
      cases hstep : stepCandidate cfg today st.processed c with
      | skip => exact ih _ h1 h2
      | reject => exact ih _ (by simpa using Nat.le_succ_of_le h1) (by simpa using hlt)
      | accept r0 =>
        refine ih _ ?_ (by simpa using hlt)
        simp
        omega

theorem runPages_bound (cfg : Config) (today : Date) :
    ∀ (pages : List (List Candidate)) (st : RunSt),
      st.results.length ≤ st.processed → st.processed ≤ cfg.limit_companies →
      (runPages cfg today st pages).results.length ≤ (runPages cfg today st pages).processed ∧
        (runPages cfg today st pages).processed ≤ cfg.limit_companies := by
  intro pages
  induction pages with
  | nil =>
    intro st h1 h2
    simp only [runPages]
    exact ⟨h1, h2⟩
  | cons page rest ih =>
    intro st h1 h2
    by_cases hpage : page = []
    · simp only [runPages, if_pos hpage]
      exact ⟨h1, h2⟩
    · rw [runPages, if_neg hpage]
      obtain ⟨hb1, hb2⟩ := runItems_bound cfg today page st h1 h2
      rcases hq : runItems cfg today st page with ⟨st1, b⟩
      rw [hq] at hb1 hb2
      cases b with
      | true => exact ⟨hb1, hb2⟩
      | false => exact ih st1 hb1 hb2

/-! ## C6 -/

/-- Claim C6: `find_targets` stops the moment the processed count has
reached `limit_companies` — at the next candidate the inner loop returns
the accumulated results unchanged, even mid-page — and consequently the
returned list never holds more than `limit_companies` records
(lines 385-387 and the `processed` accounting). -/
theorem C6_cap_and_midpage_stop (cfg : Config) (today : Date) (pages : List (List Candidate)) :
    (find_targets cfg today pages).length ≤ cfg.limit_companies ∧
    (∀ (st : RunSt) (c : Candidate) (rest : List Candidate),
      cfg.limit_companies ≤ st.processed →
      runItems cfg today st (c :: rest) = (st, true)) := by
  constructor
  · have h := runPages_bound cfg today pages ⟨0, [], 0⟩ (by simp) (by simp)
    exact h.1.trans h.2
  · intro st c rest h
    rw [runItems, if_pos h]

def cfgC6 : Config := { limit_companies := 1 }

/-- Witness for C6: cap 1, two permissive candidates on one page — only
one record comes back, and a loop entered at the cap stops at once. -/
theorem C6_witness :
    (find_targets cfgC6 today1 [[cand1, cand1]]).length ≤ cfgC6.limit_companies ∧
      runItems cfgC6 today1 ⟨1, [], 1⟩ [cand1] = (⟨1, [], 1⟩, true) :=
  ⟨(C6_cap_and_midpage_stop cfgC6 today1 [[cand1, cand1]]).1,
   (C6_cap_and_midpage_stop cfgC6 today1 []).2 ⟨1, [], 1⟩ cand1 [] (by decide)⟩

/-! ## C2 -/

def cfgC2 : Config := { min_years_trading := 10, limit_companies := 1 }

def candC2 : Candidate := { cand1 with date_of_creation := some "2024-01-01" }

/-- Counterexample to claim C2: with `limit_companies = 1` and two
candidates that fail the years-trading gate, both candidates are scanned
(`examined = 2 > 1`) while the `processed` counter stays 0 — the
years-trading rejection does not count against the per-run cap. -/
theorem C2_counterexample :
    findTargetsStats cfgC2 today1 [[candC2, candC2]] = ⟨0, [], 2⟩ ∧
      cfgC2.limit_companies < (findTargetsStats cfgC2 today1 [[candC2, candC2]]).examined :=
  ⟨rfl, by decide⟩

/-- Claim C2 (amended): a candidate rejection bypasses the `processed`
counter exactly when it happens at one of the three early gates —
years-trading, director-count, director-age; every later rejection (and
every acceptance) advances `processed`.  Hence a run can scan more than
`limit_companies` candidates when candidates fail the early gates. -/
theorem C2_skip_iff_early_gate (cfg : Config) (today : Date) (p : ℕ) (c : Candidate) :
    stepCandidate cfg today p c = .skip ↔
      (yearsGate cfg today c = true ∨ directorsGate cfg c = true ∨
        dirAgeGate cfg today c = true) := by
  constructor
  · exact stepCandidate_skip_inv cfg today p c
  · intro h
    unfold stepCandidate
    rcases h with h | h | h
    · rw [if_pos h]
    · by_cases h1 : yearsGate cfg today c = true
      · rw [if_pos h1]
      · rw [if_neg h1, if_pos h]
    · by_cases h1 : yearsGate cfg today c = true
      · rw [if_pos h1]
      · by_cases h2 : directorsGate cfg c = true
        · rw [if_neg h1, if_pos h2]
        · rw [if_neg h1, if_neg h2, if_pos h]

/-! ## C1 -/

def cfgC1 : Config := { fetch_financials := true, min_employees := 5 }

/-- Counterexample to claim C1: a candidate whose employee figure is
unknown (`None`) after the financial fetch, under an active floor
`min_employees = 5`, is NOT excluded — it is emitted into the result
list (line 485: the gate requires `fin.get("employees") is not None`). -/
theorem C1_counterexample :
    cfgC1.min_employees ≠ 0 ∧ cfgC1.fetch_financials = true ∧
      (find_targets cfgC1 today1 [[cand1]]).map (fun q => (q.company_number, q.employees)) =
        [("01", none)] :=
  ⟨by decide, rfl, rfl⟩

/-- A false employee-floor gate with a known employee figure forces the
figure to meet the floor. -/
theorem employeesGate_false_bound (cfg : Config) (p : ℕ) (c : Candidate) (e : ℚ)
    (hE : (finFor cfg p c).employees = some e)
    (hmin : cfg.min_employees ≠ 0) (hgate : employeesGate cfg p c = false) :
    (cfg.min_employees : ℚ) ≤ e := by
  have hf : (cfg.fetch_financials && decide (p < cfg.financials_top_n)) = true := by
    by_contra hf
    unfold finFor at hE
    rw [if_neg hf] at hE
    exact Option.noConfusion hE
  unfold employeesGate at hgate
  rw [hf, hE, decide_eq_true hmin] at hgate
  simp only [Bool.true_and] at hgate
  have hgate2 : decide (e < (cfg.min_employees : ℚ)) = false := hgate
  exact not_lt.mp (of_decide_eq_false hgate2)

/-- Claim C1 (amended): the employee floor rejects only candidates with a
*known* employee figure below the floor; a `None` figure passes.  Thus
every emitted record that does carry a known employee figure meets an
active floor, while records with unknown employee count flow through. -/
theorem C1_employees_floor (cfg : Config) (today : Date) (pages : List (List Candidate))
    (r : Rec) (v : ℚ) (hmem : r ∈ find_targets cfg today pages)
    (hmin : cfg.min_employees ≠ 0) (hv : r.employees = some v) :
    (cfg.min_employees : ℚ) ≤ v := by
  obtain ⟨p, c, hacc⟩ := mem_find_targets cfg today pages r hmem
  obtain ⟨hrec, hgate⟩ := stepCandidate_accept_inv cfg today p c r hacc
  have hemp : (finFor cfg p c).employees = some v := by
    rw [← hv, hrec]
    rfl
  exact employeesGate_false_bound cfg p c v hemp hmin hgate

def candC1w : Candidate := { cand1 with fin := ⟨none, none, some 10⟩ }

/-- Witness for C1 (amended): a candidate with a known employee count 10
under floor 5 is emitted, and the theorem yields `5 ≤ 10`. -/
theorem C1_witness : ((cfgC1.min_employees : ℕ) : ℚ) ≤ 10 := by
  have hmap : (find_targets cfgC1 today1 [[candC1w]]).map (fun q => q.employees) =
      [some 10] := rfl
  obtain ⟨r, hr, hre⟩ : ∃ r ∈ find_targets cfgC1 today1 [[candC1w]], r.employees = some 10 := by
    rcases hlist : find_targets cfgC1 today1 [[candC1w]] with _ | ⟨r0, rest⟩
    · rw [hlist] at hmap
      cases hmap
    · rw [hlist] at hmap
      simp only [List.map_cons, List.cons.injEq] at hmap
      exact ⟨r0, by simp [hlist], hmap.1⟩
  exact C1_employees_floor cfgC1 today1 [[candC1w]] r 10 hr (by decide) hre

/-! ## Rounding lemmas -/

theorem roundHalfEvenQ_le (q : ℚ) : (roundHalfEvenQ q : ℚ) ≤ q + 1/2 := by
  have h0 := Int.floor_le q
  simp only [roundHalfEvenQ]
  by_cases hA : q - (⌊q⌋ : ℚ) < 1/2
  · rw [if_pos hA]
    linarith
  · rw [if_neg hA]
    by_cases hB : 1/2 < q - (⌊q⌋ : ℚ)
    · rw [if_pos hB]
      push_cast
      linarith
    · rw [if_neg hB]
      by_cases hC : ⌊q⌋ % 2 = 0
      · rw [if_pos hC]
        linarith
      · rw [if_neg hC]
        push_cast
        linarith

theorem round1_le (q : ℚ) : round1 q ≤ q + 1/20 := by
  have h := roundHalfEvenQ_le (10 * q)
  unfold round1
  linarith

theorem roundHalfEvenQ_intCast (z : ℤ) : roundHalfEvenQ (z : ℚ) = z := by
  simp only [roundHalfEvenQ, Int.floor_intCast]
  rw [if_pos]
  rw [sub_self]
  norm_num

theorem round1_intCast (z : ℤ) : round1 (z : ℚ) = z := by
  unfold round1
  rw [show (10 : ℚ) * z = ((10 * z : ℤ) : ℚ) by push_cast; ring, roundHalfEvenQ_intCast]
  push_cast
  ring

/-! ## C4 -/

/-- With the guard passed and the centre resolved, `filter_by_radius` is
the sorted filter-map of lines 321-337. -/
theorem filter_by_radius_resolved (hav : ℚ → ℚ → ℚ → ℚ → ℚ) (lat0 lon0 : ℚ)
    (geo : String → Option ℚ × Option ℚ) (rows : List Row) (centre : String) (radius : ℚ)
    (hcond : ¬(rows = [] ∨ centre = "" ∨ radius ≤ 0)) :
    filter_by_radius hav (some lat0, some lon0) geo rows centre radius =
      (rows.filterMap (radiusStep hav lat0 lon0 geo radius)).mergeSort rowLe := by
  unfold filter_by_radius
  rw [if_neg hcond]

/-- Inversion of one radius-loop iteration that kept the row. -/
theorem radiusStep_some (hav : ℚ → ℚ → ℚ → ℚ → ℚ) (lat0 lon0 : ℚ)
    (geo : String → Option ℚ × Option ℚ) (radius : ℚ) (a r : Row)
    (h : radiusStep hav lat0 lon0 geo radius a = some r) :
    ∃ lat lon, geo (normPC a.postcode) = (some lat, some lon) ∧
      hav lat0 lon0 lat lon ≤ radius ∧
      r = { a with
              distance_km := some (round1 (hav lat0 lon0 lat lon))
              lat := some lat
              lon := some lon } := by
  unfold radiusStep at h
  rcases hg : geo (normPC a.postcode) with ⟨gl, go⟩
  rw [hg] at h
  rcases gl with _ | lat
  · exact Option.noConfusion h
  rcases go with _ | lon
  · exact Option.noConfusion h
  have h2 : (if hav lat0 lon0 lat lon ≤ radius then
      some { a with
              distance_km := some (round1 (hav lat0 lon0 lat lon))
              lat := some lat
              lon := some lon }
    else none) = some r := h
  by_cases hd : hav lat0 lon0 lat lon ≤ radius
  · rw [if_pos hd] at h2
    exact ⟨lat, lon, rfl, hd, (Option.some.inj h2).symm⟩
  · rw [if_neg hd] at h2
    exact Option.noConfusion h2

def hav4c : ℚ → ℚ → ℚ → ℚ → ℚ := fun _ _ _ _ => 999/100

def geoAll0 : String → Option ℚ × Option ℚ := fun _ => (some 0, some 0)

def rowC4out : Row :=
  { company_number := "01"
    postcode := some "PC1"
    distance_km := some (round1 (999/100))
    lat := some 0
    lon := some 0 }

theorem round1_999_100 : round1 (999/100 : ℚ) = 10 := by
  have hfl : ⌊(10 : ℚ) * (999/100)⌋ = 99 := by
    rw [Int.floor_eq_iff]
    constructor <;> norm_num
  simp only [round1, roundHalfEvenQ, hfl]
  rw [if_neg (by push_cast; norm_num), if_pos (by push_cast; norm_num)]
  push_cast
  norm_num

/-- Counterexample to claim C4: with a centre and a candidate postcode
that resolve, and the haversine distance landing at `9.99` km with radius
`R = 9.99` km, the candidate passes the (unrounded) test `dist ≤ R`, but
the stored `distance_km` is `round(9.99, 1) = 10.0 > R`. -/
theorem C4_counterexample :
    (filter_by_radius hav4c (some 0, some 0) geoAll0 [row1] "C1 1AA" (999/100)).map
        (fun r => r.distance_km) = [some 10] ∧
      ¬((10 : ℚ) ≤ 999/100) := by
  constructor
  · rw [filter_by_radius_resolved _ _ _ _ _ _ _
      (by push_neg; exact ⟨by simp, by simp, by norm_num⟩)]
    have hstep : radiusStep hav4c 0 0 geoAll0 (999/100) row1 = some rowC4out := by
      show (if (999/100 : ℚ) ≤ 999/100 then some rowC4out else none) = some rowC4out
      rw [if_pos le_rfl]
    have hfm : List.filterMap (radiusStep hav4c 0 0 geoAll0 (999/100)) [row1] =
        [rowC4out] := by
      simp only [List.filterMap_cons, hstep, List.filterMap_nil]
    rw [hfm, List.mergeSort_singleton, List.map_singleton]
    rw [show rowC4out.distance_km = some (round1 (999/100 : ℚ)) from rfl, round1_999_100]
  · norm_num

/-- Claim C4 (amended): every record surviving an active radius filter
has an unrounded centre distance `d ≤ R`; the stored `distance_km` is
that distance rounded to one decimal (hence at most `R + 0.05`, but it
can exceed `R` itself); and the output is sorted non-decreasing by
`distance_km`. -/
theorem C4_radius_amended (hav : ℚ → ℚ → ℚ → ℚ → ℚ) (geo : String → Option ℚ × Option ℚ)
    (lat0 lon0 : ℚ) (rows : List Row) (centre : String) (radius : ℚ)
    (h1 : rows ≠ []) (h2 : centre ≠ "") (h3 : 0 < radius) :
    (∀ r ∈ filter_by_radius hav (some lat0, some lon0) geo rows centre radius,
        ∃ d : ℚ, d ≤ radius ∧ r.distance_km = some (round1 d) ∧
          round1 d ≤ radius + 1/20) ∧
      (filter_by_radius hav (some lat0, some lon0) geo rows centre radius).Sorted
        (fun a b => sortKey a ≤ sortKey b) := by
  rw [filter_by_radius_resolved _ _ _ _ _ _ _
    (by push_neg; exact ⟨h1, h2, by linarith⟩)]
  constructor
  · intro r hr
    rw [List.mem_mergeSort] at hr
    obtain ⟨a, ha, hfa⟩ := List.mem_filterMap.mp hr
    obtain ⟨lat, lon, hg, hd, hrec⟩ := radiusStep_some hav lat0 lon0 geo radius a r hfa
    refine ⟨hav lat0 lon0 lat lon, hd, ?_, ?_⟩
    · rw [hrec]
    · have := round1_le (hav lat0 lon0 lat lon)
      linarith
  · have htrans : ∀ a b c : Row, rowLe a b → rowLe b c → rowLe a c := by
      intro a b c hab hbc
      simp only [rowLe, decide_eq_true_eq] at hab hbc ⊢
      exact le_trans hab hbc
    have htotal : ∀ a b : Row, rowLe a b || rowLe b a := by
      intro a b
      simp only [rowLe, Bool.or_eq_true, decide_eq_true_eq]
      exact le_total _ _
    have hp := List.sorted_mergeSort htrans htotal
      (rows.filterMap (radiusStep hav lat0 lon0 geo radius))
    refine hp.imp ?_
    intro a b hab
    simp only [rowLe, decide_eq_true_eq] at hab
    exact hab

/-- Witness for C4 (amended): a concrete resolvable one-row input with
radius 25; the theorem's sortedness conclusion at that input. -/
theorem C4_witness :
    (filter_by_radius (fun _ _ _ _ => 1) (some 0, some 0) (fun _ => (some 0, some 0))
        [row1] "NN1 1AA" 25).Sorted (fun a b => sortKey a ≤ sortKey b) :=
  (C4_radius_amended (fun _ _ _ _ => 1) (fun _ => (some 0, some 0)) 0 0 [row1] "NN1 1AA" 25
    (by simp) (by simp) (by norm_num)).2

/-! ## C5 -/

def wHalf : Weights := ⟨1/2, 0, 0, 0, 0, 0⟩

def rowTop : ScoreRow := ⟨some 85, none, none, none, none, none⟩

/-- Counterexample to claim C5: with weights summing to `1/2` (director
weight `0.5`, the rest zero — reachable slider values) and a row whose
director-age feature normalizes to 1, the code divides by `0.5` and
scores 100, while the claimed `max(Σw, 1)` denominator would give 50. -/
theorem C5_counterexample :
    add_boomer_score wHalf none rowTop = 100 ∧
      boomerScoreSpecFloor wHalf none rowTop = 50 ∧ ¬(100 : ℚ) = 50 := by
  have hs : sumWeights wHalf = 1/2 := by
    norm_num [sumWeights, weightsList, wHalf]
  have hd : dotScore wHalf (scoreParts none rowTop) = 1/2 := by
    norm_num [dotScore, weightsList, scoreParts, _norm, wHalf, rowTop]
  have h100 : round1 ((100 : ℤ) : ℚ) = ((100 : ℤ) : ℚ) := by
    rw [round1_intCast]
  have h50 : round1 ((50 : ℤ) : ℚ) = ((50 : ℤ) : ℚ) := by
    rw [round1_intCast]
  refine ⟨?_, ?_, by norm_num⟩
  · unfold add_boomer_score
    rw [hs, hd, if_pos (by norm_num : (0:ℚ) < 1/2)]
    show round1 ((100 : ℚ) * (1/2) / (1/2)) = 100
    rw [show (100 : ℚ) * (1/2) / (1/2) = ((100 : ℤ) : ℚ) by norm_num]
    rw [h100]
    norm_num
  · unfold boomerScoreSpecFloor
    rw [hs, hd]
    rw [show max (1/2 : ℚ) 1 = 1 from max_eq_right (by norm_num)]
    rw [show (100 : ℚ) * (1/2) / 1 = ((50 : ℤ) : ℚ) by norm_num]
    rw [h50]
    norm_num

/-- Claim C5 (amended): the per-row score is
`round1(100 · Σ w·p / D)` with missing features contributing zero to the
numerator, where the denominator `D` is `Σ w` when `Σ w > 0` and `1`
otherwise (so all-zero weights divide by 1) — NOT `max(Σ w, 1)`.  The two
denominators coincide exactly when `Σ w ≤ 0` or `Σ w ≥ 1`; for
`0 < Σ w < 1` the code divides by `Σ w`. -/
theorem C5_score_amended (w : Weights) (radius_used : Option ℚ) (r : ScoreRow) :
    add_boomer_score w radius_used r =
      round1 (100 * dotScore w (scoreParts radius_used r) /
        (if 0 < sumWeights w then sumWeights w else 1)) ∧
    (sumWeights w ≤ 0 ∨ 1 ≤ sumWeights w →
      add_boomer_score w radius_used r = boomerScoreSpecFloor w radius_used r) := by
  refine ⟨rfl, ?_⟩
  intro h
  unfold add_boomer_score boomerScoreSpecFloor
  have hD : (if 0 < sumWeights w then sumWeights w else 1) = max (sumWeights w) 1 := by
    rcases h with h | h
    · rw [if_neg (by linarith), max_eq_right (by linarith)]
    · rw [if_pos (by linarith), max_eq_left h]
  rw [hD]

/-- Witness for C5 (amended): the all-zero weight configuration falls in
the agreement region, so the code score equals the spec-floor score. -/
theorem C5_witness :
    add_boomer_score ⟨0, 0, 0, 0, 0, 0⟩ none rowTop =
      boomerScoreSpecFloor ⟨0, 0, 0, 0, 0, 0⟩ none rowTop :=
  (C5_score_amended ⟨0, 0, 0, 0, 0, 0⟩ none rowTop).2
    (Or.inl (by norm_num [sumWeights, weightsList]))

/-! ## C3: the throttle

List helpers first, then an inductive invariant of the idealised
execution: `h` is the full history of recorded timestamps, `q` the live
queue (always a suffix of `h`), `clock` the last recorded time. -/

theorem length_dropWhile_le {α : Type} (p : α → Bool) (l : List α) :
    (l.dropWhile p).length ≤ l.length := by
  conv_rhs => rw [← List.takeWhile_append_dropWhile (p := p) (l := l)]
  rw [List.length_append]
  omega

theorem dropWhile_head_false {α : Type} (p : α → Bool) :
    ∀ (l : List α) (x : α) (xs : List α), l.dropWhile p = x :: xs → p x = false := by
  intro l
  induction l with
  | nil =>
    intro x xs h
    simp [List.dropWhile] at h
  | cons a rest ih =>
    intro x xs h
    rw [List.dropWhile_cons] at h
    by_cases hpa : p a = true
    · rw [if_pos hpa] at h
      exact ih x xs h
    · rw [if_neg hpa] at h
      obtain ⟨h1, _⟩ := List.cons.inj h
      subst h1
      cases hB : p a with
      | false => rfl
      | true => exact absurd hB hpa

theorem getD_mem_of_lt {α : Type} [Inhabited α] (l : List α) (d : α) (i : ℕ)
    (h : i < l.length) : l.getD i d ∈ l := by
  rw [List.getD_eq_get _ _ h]
  exact List.get_mem l i h

theorem sorted_append_singleton (l : List ℚ) (x : ℚ) (hs : l.Sorted (· ≤ ·))
    (hall : ∀ t ∈ l, t ≤ x) : (l ++ [x]).Sorted (· ≤ ·) := by
  rw [List.Sorted, List.pairwise_append]
  refine ⟨hs, List.pairwise_singleton _ _, ?_⟩
  intro a ha b hb
  rw [List.mem_singleton] at hb
  subst hb
  exact hall a ha

/-- Invariant of the throttle execution: the queue is a suffix of the
history, every dropped entry was already expired at the current clock,
the history is sorted and clock-bounded, the queue holds at most
`_LIMIT + 1` entries (and when it holds `_LIMIT + 1` its head is already
expired), and any `_LIMIT + 1` consecutive recorded timestamps span more
than `_WINDOW`. -/
structure ThInv (h q : List ℚ) (clock : ℚ) : Prop where
  suff : ∃ pre, h = pre ++ q ∧ ∀ t ∈ pre, _WINDOW < clock - t
  sorted : h.Sorted (· ≤ ·)
  ub : ∀ t ∈ h, t ≤ clock
  qlen : q.length ≤ _LIMIT + 1
  qfull : q.length = _LIMIT + 1 → _WINDOW < clock - q.headD 0
  spaced : ∀ i, i + _LIMIT < h.length → h.getD i 0 + _WINDOW < h.getD (i + _LIMIT) 0

/-- When the pruned queue is at the ceiling, `_throttle` records the
timestamp `oldest + _WINDOW + 1`: strictly after the oldest surviving
entry expires, and strictly after `now` (the caller blocked). -/
theorem throttleStep_full (q : List ℚ) (now : ℚ)
    (hfull : _LIMIT ≤ (q.dropWhile fun s => decide (_WINDOW < now - s)).length) :
    (throttleStep q now).2 =
        (q.dropWhile fun s => decide (_WINDOW < now - s)).headD 0 + _WINDOW + 1 ∧
      now < (throttleStep q now).2 ∧
      (throttleStep q now).1 =
        (q.dropWhile fun s => decide (_WINDOW < now - s)) ++ [(throttleStep q now).2] := by
  have hne : (q.dropWhile fun s => decide (_WINDOW < now - s)) ≠ [] := by
    intro he
    rw [he] at hfull
    have hL : (0 : ℕ) < _LIMIT := by decide
    simp at hfull
    omega
  obtain ⟨t0, q1rest, hq1e⟩ := List.exists_cons_of_ne_nil hne
  have hpt0 : (fun s => decide (_WINDOW < now - s)) t0 = false :=
    dropWhile_head_false _ q t0 q1rest hq1e
  have hpt0' : decide (_WINDOW < now - t0) = false := hpt0
  have ht0 : now - t0 ≤ _WINDOW := not_lt.mp (of_decide_eq_false hpt0')
  have hhead : (q.dropWhile fun s => decide (_WINDOW < now - s)).headD 0 = t0 := by
    rw [hq1e]
    rfl
  have hissue : now + max 1 (_WINDOW - (now - t0) + 1) = t0 + _WINDOW + 1 := by
    rw [max_eq_right (by linarith : (1:ℚ) ≤ _WINDOW - (now - t0) + 1)]
    ring
  have hstep : throttleStep q now =
      ((q.dropWhile fun s => decide (_WINDOW < now - s)) ++ [t0 + _WINDOW + 1],
        t0 + _WINDOW + 1) := by
    simp only [throttleStep]
    rw [if_pos hfull, hhead, hissue]
  rw [hstep]
  refine ⟨by rw [hhead], ?_, rfl⟩
  show now < t0 + _WINDOW + 1
  linarith

/-- One throttle call preserves the invariant (for any `now ≥ clock`). -/
theorem throttleStep_inv (h q : List ℚ) (clock now : ℚ) (hcn : clock ≤ now)
    (inv : ThInv h q clock) :
    ThInv (h ++ [(throttleStep q now).2]) (throttleStep q now).1 (throttleStep q now).2 := by
  obtain ⟨pre, hpre, hpredrop⟩ := inv.suff
  have hq_decomp : q = (q.takeWhile fun s => decide (_WINDOW < now - s)) ++
      (q.dropWhile fun s => decide (_WINDOW < now - s)) :=
    (List.takeWhile_append_dropWhile _ q).symm
  have hdecomp : h = (pre ++ (q.takeWhile fun s => decide (_WINDOW < now - s))) ++
      (q.dropWhile fun s => decide (_WINDOW < now - s)) := by
    rw [hpre]
    conv_lhs => rw [hq_decomp]
    rw [List.append_assoc]
  have hpre2 : ∀ u ∈ pre ++ (q.takeWhile fun s => decide (_WINDOW < now - s)),
      _WINDOW < now - u := by
    intro u humem
    rcases List.mem_append.mp humem with humem | humem
    · have := hpredrop u humem
      linarith
    · have hmt := List.mem_takeWhile_imp humem
      have hmt2 : decide (_WINDOW < now - u) = true := hmt
      exact of_decide_eq_true hmt2
  have hlenh : h.length =
      (pre ++ (q.takeWhile fun s => decide (_WINDOW < now - s))).length +
        (q.dropWhile fun s => decide (_WINDOW < now - s)).length := by
    rw [hdecomp, List.length_append]
  by_cases hfull : _LIMIT ≤ (q.dropWhile fun s => decide (_WINDOW < now - s)).length
  · -- the ceiling branch: issue = oldest + _WINDOW + 1
    obtain ⟨hval, hnowlt, hq2⟩ := throttleStep_full q now hfull
    have hq1len : (q.dropWhile fun s => decide (_WINDOW < now - s)).length = _LIMIT := by
      have hle : (q.dropWhile fun s => decide (_WINDOW < now - s)).length ≤ _LIMIT := by
        by_cases hql : q.length = _LIMIT + 1
        · have hqful := inv.qfull hql
          have hqne : q ≠ [] := by
            intro he
            rw [he] at hql
            simp at hql
          obtain ⟨s0, qrest, hqe⟩ := List.exists_cons_of_ne_nil hqne
          have hhead0 : q.headD 0 = s0 := by rw [hqe]; rfl
          rw [hhead0] at hqful
          have hps0 : (fun s => decide (_WINDOW < now - s)) s0 = true :=
            decide_eq_true (by linarith)
          have hdw : q.dropWhile (fun s => decide (_WINDOW < now - s)) =
              qrest.dropWhile (fun s => decide (_WINDOW < now - s)) := by
            rw [hqe, List.dropWhile_cons, if_pos hps0]
          have h1 := length_dropWhile_le (fun s => decide (_WINDOW < now - s)) qrest
          have h2 : qrest.length + 1 = q.length := by rw [hqe]; rfl
          rw [hdw]
          omega
        · have h1 := inv.qlen
          have h2 := length_dropWhile_le (fun s => decide (_WINDOW < now - s)) q
          omega
      omega
    have hne : (q.dropWhile fun s => decide (_WINDOW < now - s)) ≠ [] := by
      intro he
      rw [he] at hq1len
      have hL : (0 : ℕ) < _LIMIT := by decide
      simp at hq1len
      omega
    obtain ⟨t0, q1rest, hq1e⟩ := List.exists_cons_of_ne_nil hne
    have hhead : (q.dropWhile fun s => decide (_WINDOW < now - s)).headD 0 = t0 := by
      rw [hq1e]
      rfl
    have hpt0 : (fun s => decide (_WINDOW < now - s)) t0 = false :=
      dropWhile_head_false _ q t0 q1rest hq1e
    have hpt0' : decide (_WINDOW < now - t0) = false := hpt0
    have ht0 : now - t0 ≤ _WINDOW := not_lt.mp (of_decide_eq_false hpt0')
    refine ⟨⟨pre ++ (q.takeWhile fun s => decide (_WINDOW < now - s)), ?_, ?_⟩,
      ?_, ?_, ?_, ?_, ?_⟩
    · rw [hq2, hdecomp, List.append_assoc]
    · intro u humem
      have := hpre2 u humem
      rw [hval, hhead]
      linarith
    · refine sorted_append_singleton _ _ inv.sorted ?_
      intro u humem
      have h1 := inv.ub u humem
      have h2 : now < (throttleStep q now).2 := hnowlt
      linarith
    · intro u humem
      rcases List.mem_append.mp humem with humem | humem
      · have h1 := inv.ub u humem
        have h2 : now < (throttleStep q now).2 := hnowlt
        linarith
      · rw [List.mem_singleton] at humem
        subst humem
        exact le_refl _
    · rw [hq2, List.length_append, List.length_singleton, hq1len]
    · intro _
      have hh2 : ((q.dropWhile fun s => decide (_WINDOW < now - s)) ++
          [(throttleStep q now).2]).headD 0 = t0 := by
        rw [hq1e]
        rfl
      rw [hq2, hh2, hval, hhead]
      linarith
    · intro i hi
      rw [List.length_append, List.length_singleton] at hi
      by_cases hlt : i + _LIMIT < h.length
      · rw [List.getD_append _ _ _ _ (by omega), List.getD_append _ _ _ _ hlt]
        exact inv.spaced i hlt
      · have heq : i + _LIMIT = h.length := by omega
        have hLpos : (0 : ℕ) < _LIMIT := by decide
        have hilt : i < h.length := by omega
        rw [List.getD_append _ _ _ _ hilt, heq,
          List.getD_append_right _ _ _ _ (le_refl _), Nat.sub_self]
        have hieq : i = (pre ++ (q.takeWhile fun s => decide (_WINDOW < now - s))).length := by
          omega
        have hgetd : h.getD i 0 = t0 := by
          rw [hdecomp, hieq, List.getD_append_right _ _ _ _ (le_refl _), Nat.sub_self, hq1e]
          rfl
        rw [hgetd]
        rw [show ([(throttleStep q now).2]).getD 0 0 = (throttleStep q now).2 from rfl, hval,
          hhead]
        linarith
  · -- below the ceiling: issue = now
    have hstep : throttleStep q now =
        ((q.dropWhile fun s => decide (_WINDOW < now - s)) ++ [now], now) := by
      simp only [throttleStep]
      rw [if_neg hfull]
    rw [hstep]
    refine ⟨⟨pre ++ (q.takeWhile fun s => decide (_WINDOW < now - s)), ?_, ?_⟩,
      ?_, ?_, ?_, ?_, ?_⟩
    · rw [hdecomp, List.append_assoc]
    · exact hpre2
    · refine sorted_append_singleton _ _ inv.sorted ?_
      intro u humem
      exact le_trans (inv.ub u humem) hcn
    · intro u humem
      rcases List.mem_append.mp humem with humem | humem
      · exact le_trans (inv.ub u humem) hcn
      · rw [List.mem_singleton] at humem
        subst humem
        exact le_refl _
    · rw [List.length_append, List.length_singleton]
      omega
    · intro habs
      rw [List.length_append, List.length_singleton] at habs
      omega
    · intro i hi
      rw [List.length_append, List.length_singleton] at hi
      by_cases hlt : i + _LIMIT < h.length
      · rw [List.getD_append _ _ _ _ (by omega), List.getD_append _ _ _ _ hlt]
        exact inv.spaced i hlt
      · have heq : i + _LIMIT = h.length := by omega
        have hLpos : (0 : ℕ) < _LIMIT := by decide
        have hilt : i < h.length := by omega
        rw [List.getD_append _ _ _ _ hilt, heq,
          List.getD_append_right _ _ _ _ (le_refl _), Nat.sub_self]
        have hipre : i < (pre ++ (q.takeWhile fun s => decide (_WINDOW < now - s))).length := by
          omega
        have hgd : h.getD i 0 =
            (pre ++ (q.takeWhile fun s => decide (_WINDOW < now - s))).getD i 0 := by
          rw [hdecomp, List.getD_append _ _ _ _ hipre]
        have hmem : (pre ++ (q.takeWhile fun s => decide (_WINDOW < now - s))).getD i 0 ∈
            pre ++ (q.takeWhile fun s => decide (_WINDOW < now - s)) :=
          getD_mem_of_lt _ _ _ hipre
        have hwin := hpre2 _ hmem
        rw [hgd]
        rw [show ([now]).getD 0 0 = now from rfl]
        linarith

theorem thInv_init (c0 : ℚ) : ThInv [] [] c0 := by
  refine ⟨⟨[], rfl, ?_⟩, List.sorted_nil, ?_, ?_, ?_, ?_⟩
  · intro t ht
    cases ht
  · intro t ht
    cases ht
  · simp
  · intro habs
    simp at habs
  · intro i hi
    simp at hi

theorem throttleRun_cons (q : List ℚ) (clock d : ℚ) (ds : List ℚ) :
    throttleRun q clock (d :: ds) =
      (throttleStep q (max clock d)).2 ::
        throttleRun (throttleStep q (max clock d)).1 (throttleStep q (max clock d)).2 ds := rfl

/-- Any state satisfying the invariant keeps producing a sorted, spaced
history. -/
theorem throttleRun_good (ds : List ℚ) :
    ∀ (h q : List ℚ) (clock : ℚ), ThInv h q clock →
      (h ++ throttleRun q clock ds).Sorted (· ≤ ·) ∧
      ∀ i, i + _LIMIT < (h ++ throttleRun q clock ds).length →
        (h ++ throttleRun q clock ds).getD i 0 + _WINDOW <
          (h ++ throttleRun q clock ds).getD (i + _LIMIT) 0 := by
  induction ds with
  | nil =>
    intro h q clock inv
    simp only [throttleRun, List.append_nil]
    exact ⟨inv.sorted, inv.spaced⟩
  | cons d rest ih =>
    intro h q clock inv
    have hstep := throttleStep_inv h q clock (max clock d) (le_max_left _ _) inv
    have heq : h ++ throttleRun q clock (d :: rest) =
        (h ++ [(throttleStep q (max clock d)).2]) ++
          throttleRun (throttleStep q (max clock d)).1 (throttleStep q (max clock d)).2 rest := by
      rw [throttleRun_cons, List.append_assoc]
      rfl
    rw [heq]
    exact ih _ _ _ hstep

/-- An order embedding of finite index sets moves indices apart at least
as far as they started. -/
theorem fin_oemb_add_le {m n : ℕ} (f : Fin m ↪o Fin n) :
    ∀ (k : ℕ) (a b : Fin m), (a : ℕ) + k ≤ (b : ℕ) → (f a : ℕ) + k ≤ (f b : ℕ) := by
  intro k
  induction k with
  | zero =>
    intro a b hab
    have hab2 : a ≤ b := by
      rw [Fin.le_def]
      omega
    have := f.monotone hab2
    rw [Fin.le_def] at this
    omega
  | succ k ih =>
    intro a b hab
    have hb' : (a : ℕ) + k < m := by
      have := b.isLt
      omega
    have h1 := ih a ⟨(a : ℕ) + k, hb'⟩ (by simp)
    have h2 : (⟨(a : ℕ) + k, hb'⟩ : Fin m) < b := by
      rw [Fin.lt_def]
      simp
      omega
    have h3 := f.strictMono h2
    rw [Fin.lt_def] at h3
    simp at h1
    omega

/-- A sorted list whose entries at distance `_LIMIT` are more than
`_WINDOW` apart has at most `_LIMIT` entries in any closed window of
length `_WINDOW`. -/
theorem count_in_window_le (l : List ℚ) (hs : l.Sorted (· ≤ ·))
    (hsp : ∀ i, i + _LIMIT < l.length →
      l.getD i 0 + _WINDOW < l.getD (i + _LIMIT) 0) (t : ℚ) :
    l.countP (fun s => decide (t - _WINDOW ≤ s ∧ s ≤ t)) ≤ _LIMIT := by
  by_contra hc
  push_neg at hc
  rw [List.countP_eq_length_filter] at hc
  have hsub : List.Sublist (l.filter (fun s => decide (t - _WINDOW ≤ s ∧ s ≤ t))) l :=
    List.filter_sublist l
  obtain ⟨f, hf⟩ := List.sublist_iff_exists_fin_orderEmbedding_get_eq.mp hsub
  have h0 : 0 < (l.filter (fun s => decide (t - _WINDOW ≤ s ∧ s ≤ t))).length := by omega
  have hkey : (f ⟨0, h0⟩ : ℕ) + _LIMIT ≤ (f ⟨_LIMIT, hc⟩ : ℕ) :=
    fin_oemb_add_le f _LIMIT ⟨0, h0⟩ ⟨_LIMIT, hc⟩ (by simp)
  have hiL : (f ⟨_LIMIT, hc⟩ : ℕ) < l.length := (f ⟨_LIMIT, hc⟩).isLt
  have hsp0 := hsp (f ⟨0, h0⟩) (by omega)
  have hv0 : l.get (f ⟨0, h0⟩) =
      (l.filter (fun s => decide (t - _WINDOW ≤ s ∧ s ≤ t))).get ⟨0, h0⟩ := (hf ⟨0, h0⟩).symm
  have hvL : l.get (f ⟨_LIMIT, hc⟩) =
      (l.filter (fun s => decide (t - _WINDOW ≤ s ∧ s ≤ t))).get ⟨_LIMIT, hc⟩ :=
    (hf ⟨_LIMIT, hc⟩).symm
  have hp0 : t - _WINDOW ≤ l.get (f ⟨0, h0⟩) ∧ l.get (f ⟨0, h0⟩) ≤ t := by
    rw [hv0]
    have hm := List.of_mem_filter
      (List.get_mem (l.filter (fun s => decide (t - _WINDOW ≤ s ∧ s ≤ t))) 0 h0)
    have hm2 : decide
        (t - _WINDOW ≤ (l.filter (fun s => decide (t - _WINDOW ≤ s ∧ s ≤ t))).get ⟨0, h0⟩ ∧
          (l.filter (fun s => decide (t - _WINDOW ≤ s ∧ s ≤ t))).get ⟨0, h0⟩ ≤ t) = true := hm
    exact of_decide_eq_true hm2
  have hpL : t - _WINDOW ≤ l.get (f ⟨_LIMIT, hc⟩) ∧ l.get (f ⟨_LIMIT, hc⟩) ≤ t := by
    rw [hvL]
    have hm := List.of_mem_filter
      (List.get_mem (l.filter (fun s => decide (t - _WINDOW ≤ s ∧ s ≤ t))) _LIMIT hc)
    have hm2 : decide
        (t - _WINDOW ≤ (l.filter (fun s => decide (t - _WINDOW ≤ s ∧ s ≤ t))).get ⟨_LIMIT, hc⟩ ∧
          (l.filter (fun s => decide (t - _WINDOW ≤ s ∧ s ≤ t))).get ⟨_LIMIT, hc⟩ ≤ t) =
        true := hm
    exact of_decide_eq_true hm2
  have hmono : l.getD ((f ⟨0, h0⟩ : ℕ) + _LIMIT) 0 ≤ l.getD (f ⟨_LIMIT, hc⟩ : ℕ) 0 := by
    rw [List.getD_eq_get _ _ (by omega : (f ⟨0, h0⟩ : ℕ) + _LIMIT < l.length),
      List.getD_eq_get _ _ hiL]
    refine hs.rel_get_of_le ?_
    rw [Fin.le_def]
    simpa using hkey
  have hg0 : l.getD (f ⟨0, h0⟩ : ℕ) 0 = l.get (f ⟨0, h0⟩) := by
    rw [List.getD_eq_get _ _ (f ⟨0, h0⟩).isLt]
  have hgL : l.getD (f ⟨_LIMIT, hc⟩ : ℕ) 0 = l.get (f ⟨_LIMIT, hc⟩) := by
    rw [List.getD_eq_get _ _ hiL]
  rw [hg0] at hsp0
  rw [hgL] at hmono
  linarith [hp0.1, hpL.2, hsp0, hmono]

/-- Claim C3: throttle behaviour, over the idealised time model (exact
`time.sleep`, `ℚ`-valued clock, sequential calls each starting no earlier
than the previous call's recorded timestamp).  Conjuncts: (1) recorded
request timestamps are non-decreasing; (2) any `_LIMIT + 1` consecutive
recorded timestamps span strictly more than `_WINDOW` — together with (1)
this is exactly "never more than `_LIMIT` requests in a trailing window
of length `_WINDOW`", stated directly by (3) as a count bound for every
window `[t - _WINDOW, t]`; and (4) when the pruned queue already holds
the ceiling `_LIMIT` of timestamps, the call blocks: it records
`oldest + _WINDOW + 1`, strictly later than `now` and strictly after the
window's oldest entry has expired. -/
theorem C3_throttle_window :
    (∀ (ds : List ℚ) (c0 : ℚ), (throttleRun [] c0 ds).Sorted (· ≤ ·)) ∧
    (∀ (ds : List ℚ) (c0 : ℚ) (i : ℕ),
      i + _LIMIT < (throttleRun [] c0 ds).length →
      (throttleRun [] c0 ds).getD i 0 + _WINDOW <
        (throttleRun [] c0 ds).getD (i + _LIMIT) 0) ∧
    (∀ (ds : List ℚ) (c0 t : ℚ),
      (throttleRun [] c0 ds).countP (fun s => decide (t - _WINDOW ≤ s ∧ s ≤ t)) ≤ _LIMIT) ∧
    (∀ (q : List ℚ) (now : ℚ),
      _LIMIT ≤ (q.dropWhile fun s => decide (_WINDOW < now - s)).length →
      (throttleStep q now).2 =
          (q.dropWhile fun s => decide (_WINDOW < now - s)).headD 0 + _WINDOW + 1 ∧
        now < (throttleStep q now).2) := by
  have hmain : ∀ (ds : List ℚ) (c0 : ℚ),
      (throttleRun [] c0 ds).Sorted (· ≤ ·) ∧
      ∀ i, i + _LIMIT < (throttleRun [] c0 ds).length →
        (throttleRun [] c0 ds).getD i 0 + _WINDOW <
          (throttleRun [] c0 ds).getD (i + _LIMIT) 0 := by
    intro ds c0
    have h := throttleRun_good ds [] [] c0 (thInv_init c0)
    simpa using h
  refine ⟨fun ds c0 => (hmain ds c0).1, fun ds c0 => (hmain ds c0).2, ?_, ?_⟩
  · intro ds c0 t
    exact count_in_window_le _ (hmain ds c0).1 (hmain ds c0).2 t
  · intro q now hfull
    obtain ⟨h1, h2, _⟩ := throttleStep_full q now hfull
    exact ⟨h1, h2⟩

def delays581 : List ℚ := List.replicate 581 0

theorem throttleRun_length (ds : List ℚ) :
    ∀ (q : List ℚ) (clock : ℚ), (throttleRun q clock ds).length = ds.length := by
  induction ds with
  | nil =>
    intro q clock
    rfl
  | cons d rest ih =>
    intro q clock
    rw [throttleRun_cons]
    simp [ih]

theorem dropWhile_replicate_false (p : ℚ → Bool) (a : ℚ) (hp : p a = false) (n : ℕ) :
    (List.replicate n a).dropWhile p = List.replicate n a := by
  cases n with
  | zero => rfl
  | succ m =>
    rw [List.replicate_succ, List.dropWhile_cons, if_neg]
    simp [hp]

/-- Witness for C3: the spacing part at a 581-call schedule (trace length
581 > `_LIMIT`), and the blocking part at a queue holding 580 timestamps
`0` queried at time `100` (none expired, so the queue is at the ceiling). -/
theorem C3_witness :
    ((throttleRun [] 0 delays581).getD 0 0 + _WINDOW <
        (throttleRun [] 0 delays581).getD (0 + _LIMIT) 0) ∧
      ((throttleStep (List.replicate 580 (0 : ℚ)) 100).2 =
          ((List.replicate 580 (0 : ℚ)).dropWhile fun s =>
              decide (_WINDOW < 100 - s)).headD 0 + _WINDOW + 1 ∧
        (100 : ℚ) < (throttleStep (List.replicate 580 (0 : ℚ)) 100).2) := by
  constructor
  · refine C3_throttle_window.2.1 delays581 0 0 ?_
    rw [throttleRun_length]
    show 0 + _LIMIT < delays581.length
    have hlen : delays581.length = 581 := by
      unfold delays581
      rw [List.length_replicate]
    rw [hlen]
    decide
  · refine C3_throttle_window.2.2.2 (List.replicate 580 (0 : ℚ)) 100 ?_
    rw [dropWhile_replicate_false _ 0
      (decide_eq_false (by norm_num [_WINDOW] : ¬(_WINDOW < (100 : ℚ) - 0))) 580]
    rw [List.length_replicate]
    decide

end BoomerRadar
